import Mathlib

/-!
Verification of the retrieval-and-ranking engine of the RAG microservice
(`rag_service/rag_deployment.py`), against its natural-language design
specification.

Modelling conventions:
* Python strings are modelled as `List Char` (`Str`); Python `str.split`,
  `str.strip`, `str.lower`, substring membership (`in`) and concatenation
  are given explicit character-level definitions mirroring the Python
  semantics.
* Python floats are modelled as exact rationals (`ℚ`); the numeric literals
  `0.3`, `0.15`, `0.2`, `0.5` of the source become `3/10`, `3/20`, `1/5`,
  `1/2`.
* The cosine kernel of the in-memory vector store
  (`dot / (na*nb + 1e-8)` over float vectors, with square roots) is
  irrational float arithmetic; it is abstracted as a parameter
  `rawSim : List ℚ → List ℚ → ℚ`, while the clamping `max(0, min(1, sim))`
  and everything downstream of it is modelled exactly.
* The embedding provider and the vector index are fallible collaborators;
  they are passed to the engine as functions returning `Except Err _`
  (`embed_texts` and `VectorStore.query`).  A raised exception is an
  `Except.error`, and Python's propagation of exceptions through code
  without `try`/`except` is the `Except` monad's bind.
* `write_audit` calls (fire-and-forget diagnostics) are modelled as an
  event trace returned alongside the result; the moment the engine
  re-invokes itself with `ignore_role=True` is marked by a `gateDisabled`
  event so that ordering claims about the degraded retry are statable.
-/

namespace Rag

/-- Python strings, modelled as their character sequences. -/
abbrev Str := List Char

/-- Character data of a Lean string literal, used to write `Str` constants. -/
def strOf (s : String) : Str := s.data

/-! ### Character-level models of the Python string operations used -/

/-- Python `str.lower` (per-character lowercasing, as used on ASCII data here). -/
def lowerChars (s : Str) : Str := s.map Char.toLower

/-- Python substring membership `needle in hay`. -/
def containsSub (hay needle : Str) : Bool :=
  needle.isPrefixOf hay ||
    match hay with
    | [] => false
    | _ :: t => containsSub t needle

/-- Python `str.split(",")`. -/
def splitComma : Str → List Str
  | [] => [[]]
  | c :: rest =>
    if c = ',' then [] :: splitComma rest
    else
      match splitComma rest with
      | [] => [[c]]
      | p :: ps => (c :: p) :: ps

/-- Python `str.split("\n\n")` (leftmost, non-overlapping occurrences). -/
def splitParas : Str → List Str
  | [] => [[]]
  | '\n' :: '\n' :: rest => [] :: splitParas rest
  | c :: rest =>
    match splitParas rest with
    | [] => [[c]]
    | p :: ps => (c :: p) :: ps

/-- The whitespace characters stripped by Python's `str.strip()`. -/
def pyWs (c : Char) : Bool :=
  c = ' ' || c = '\t' || c = '\n' || c = '\r' || c = '\x0b' || c = '\x0c'

/-- Python `str.strip()`. -/
def trimChars (s : Str) : Str :=
  ((s.dropWhile pyWs).reverse.dropWhile pyWs).reverse

/-- Python `str(i)` for a natural number. -/
def natStr (n : Nat) : Str := Nat.toDigits 10 n

/-- Python's stable `list.sort` / `sorted`: insert an element before the first
position whose element it compares `le` to (stable insertion). -/
def pyInsert (le : α → α → Bool) (a : α) : List α → List α
  | [] => [a]
  | b :: t => if le a b then a :: b :: t else b :: pyInsert le a t

/-- Python's stable sort with comparison `le` (derived from a sort key). -/
def pySort (le : α → α → Bool) : List α → List α
  | [] => []
  | a :: t => pyInsert le a (pySort le t)

/-! ### Data model -/

/-- `class Role(str, Enum)`: the closed role enumeration. -/
inductive Role
  | employee
  | hr
  | ceo
  | admin
deriving DecidableEq

/-- `role.value`: the string value of a role. -/
def Role.value : Role → Str
  | .employee => strOf "employee"
  | .hr => strOf "hr"
  | .ceo => strOf "ceo"
  | .admin => strOf "admin"

/-- Chunk metadata as written by `RAGSystem.upsert_document` (every key is
always present there, so the dictionary is modelled as a structure;
`allowed_roles` is stored as the comma-joined string of role values). -/
structure Meta where
  tenant_id : Str
  doc_id : Str
  allowed_roles : Str
  confidentiality_level : Str
  source_reference : Str
deriving DecidableEq

/-- An item of the in-memory vector store: `(id, vector, metadata, document)`. -/
structure StoredDoc where
  id : Str
  vec : List ℚ
  meta : Meta
  doc : Str
deriving DecidableEq

/-- One row of a `VectorStore.query` result (the Python code returns the
parallel lists `distances`/`metadatas`/`documents`/`ids` and always reads
them at a common index, so a result is modelled as a list of rows). -/
structure ScoredDoc where
  dist : ℚ
  meta : Meta
  doc : Str
  id : Str
deriving DecidableEq

/-- Collaborator failures: `EmbeddingFailure` and `IndexUnavailable`. -/
inductive Err
  | embeddingFailure
  | indexUnavailable
deriving DecidableEq

/-! ### In-memory `VectorStore.query` -/

/-- The clamp `max(0.0, min(1.0, sim))` applied to the raw cosine value. -/
def clamp01 (x : ℚ) : ℚ := max 0 (min 1 x)

/-- In-memory `VectorStore.query`: filter the stored docs by `tenant_id`,
score each as cosine distance `1 - sim`, sort ascending by distance
(stably) and take the first `top_k`.  `rawSim` abstracts the float cosine
kernel `_sim` before its clamp. -/
def vsQuery (rawSim : List ℚ → List ℚ → ℚ) (docs : List StoredDoc)
    (embedding : List ℚ) (tenant : Str) (topK : Nat) : List ScoredDoc :=
  let pool := docs.filter (fun d => d.meta.tenant_id = tenant)
  let scored := pool.map
    (fun d => ScoredDoc.mk (1 - clamp01 (rawSim embedding d.vec)) d.meta d.doc d.id)
  (pySort (fun a b => decide (a.dist ≤ b.dist)) scored).take topK

/-! ### `chunk_text` and joining -/

/-- The loop body of `chunk_text`: accumulate paragraphs into `current`,
flushing when adding the next paragraph would exceed `max_len`. -/
def chunkTextAux (maxLen : Nat) : List Str → Str → List Str
  | [], current => if current = [] then [] else [current]
  | para :: rest, current =>
    if current ≠ [] ∧ maxLen < current.length + 2 + para.length then
      current :: chunkTextAux maxLen rest para
    else
      chunkTextAux maxLen rest
        (if current = [] then para else current ++ strOf "\n\n" ++ para)

/-- `chunk_text(text, max_len)`. -/
def chunk_text (text : Str) (maxLen : Nat) : List Str :=
  chunkTextAux maxLen (splitParas text) []

/-- `"\n\n".join(parts)`. -/
def joinParas : List Str → Str
  | [] => []
  | [p] => p
  | p :: q :: rest => p ++ strOf "\n\n" ++ joinParas (q :: rest)

/-- The chunks indexed by `RAGSystem.upsert_document` (it calls
`chunk_text(content)` with the default `max_len = 800`). -/
def upsertParts (content : Str) : List Str := chunk_text content 800

/-! ### Retrieval: primary-round candidate filtering -/

/-- `cosine_to_similarity`: `max(0.0, 1.0 - distance)`. -/
def cosine_to_similarity (distance : ℚ) : ℚ := max 0 (1 - distance)

/-- A retrieved-passage dictionary (`hits` / `final_selected` entries).
Primary-round hits carry no `source_reference` key; since the code only
ever reads that key with default `""`, the absent key is modelled as `[]`. -/
structure Hit where
  id : Str
  doc_id : Str
  chunk : Str
  similarity : ℚ
  confidentiality : Str
  source_reference : Str
deriving DecidableEq

/-- The parse of the stored `allowed_roles` field used on the primary round:
`[s.strip() for s in str(field).split(",") if s.strip()]`. -/
def parseRoles (field : Str) : List Str :=
  ((splitComma field).map trimChars).filter (fun s => s ≠ [])

/-- The primary-round role gate's skip condition:
`not ignore_role and allowed and role.value not in allowed`. -/
def roleBlocks (ignoreRole : Bool) (role : Role) (field : Str) : Bool :=
  !ignoreRole && !(parseRoles field).isEmpty && !(decide (role.value ∈ parseRoles field))

/-- The hand-authored query keyword table `doc_type_keywords`. -/
def docTypeKeywords : List (Str × List Str) :=
  [ (strOf "appraisal",
      [strOf "appraisal", strOf "performance", strOf "review", strOf "evaluation"]),
    (strOf "medical",
      [strOf "medical", strOf "illness", strOf "sick", strOf "health"]),
    (strOf "maternity",
      [strOf "maternity", strOf "pregnancy", strOf "pregnant", strOf "delivery",
        strOf "childbirth"]),
    (strOf "work_hours",
      [strOf "work hours", strOf "working hours", strOf "hours adherence",
        strOf "attendance", strOf "shift hours", strOf "office hours",
        strOf "timing policy"]) ]

/-- `detected_types`: table keys one of whose keywords occurs in the
lowercased query. -/
def detectTypes (queryLower : Str) : List Str :=
  (docTypeKeywords.filter
    (fun p => p.2.any (fun kw => containsSub queryLower kw))).map (fun p => p.1)

/-- Does the candidate match one of the detected document types
(`dt in doc_id or dt in doc_text`, both lowercased)? -/
def matchesType (detected : List Str) (r : ScoredDoc) : Bool :=
  detected.any (fun dt =>
    containsSub (lowerChars r.meta.doc_id) dt || containsSub (lowerChars r.doc) dt)

/-- The document-type penalty's skip condition: a detected type exists, the
candidate matches none, and its similarity is below
`max(0.2, min_similarity - 0.2)`. -/
def penaltySkips (minSim : ℚ) (detected : List Str) (r : ScoredDoc) : Bool :=
  !detected.isEmpty && !matchesType detected r &&
    decide (cosine_to_similarity r.dist < max (1/5) (minSim - 1/5))

/-- The hit built for primary-round row `r` at result index `i`
(`stable_id = doc_id + "::idx::" + str(i)`). -/
def mkPrimaryHit (r : ScoredDoc) (i : Nat) : Hit :=
  { id := r.meta.doc_id ++ strOf "::idx::" ++ natStr i
    doc_id := r.meta.doc_id
    chunk := r.doc
    similarity := cosine_to_similarity r.dist
    confidentiality := r.meta.confidentiality_level
    source_reference := [] }

/-- The primary-round loop over the raw query result: role gate, then
document-type penalty, then hit construction; counts `blocked_by_role`. -/
def primaryLoop (role : Role) (ignoreRole : Bool) (minSim : ℚ)
    (detected : List Str) :
    List ScoredDoc → Nat → List Hit → Nat → List Hit × Nat
  | [], _, hits, blocked => (hits, blocked)
  | r :: rest, i, hits, blocked =>
    if roleBlocks ignoreRole role r.meta.allowed_roles then
      primaryLoop role ignoreRole minSim detected rest (i + 1) hits (blocked + 1)
    else if penaltySkips minSim detected r then
      primaryLoop role ignoreRole minSim detected rest (i + 1) hits blocked
    else
      primaryLoop role ignoreRole minSim detected rest (i + 1)
        (hits ++ [mkPrimaryHit r i]) blocked

/-! ### Dominant-document selection -/

/-- Keys of the Python dict `by_doc`, in insertion order (order of first
occurrence of each `doc_id` in `hits`). -/
def firstKeysAux : List Str → List Str → List Str
  | [], acc => acc
  | d :: rest, acc => firstKeysAux rest (if d ∈ acc then acc else acc ++ [d])

/-- First-occurrence list of document identifiers. -/
def firstKeys (l : List Str) : List Str := firstKeysAux l []

/-- The group of hits of one document (`by_doc[doc_id]`, in hit order). -/
def groupHits (hits : List Hit) (d : Str) : List Hit :=
  hits.filter (fun h => h.doc_id = d)

/-- `avg_sim`: arithmetic mean similarity of a document's group. -/
def groupAvg (hits : List Hit) (d : Str) : ℚ :=
  ((groupHits hits d).map (fun h => h.similarity)).sum / ((groupHits hits d).length : ℚ)

/-- The dominant-document fold: `if avg_sim > best_avg: best_avg, dominant = ...`,
starting from `(None, 0.0)`. -/
def pickDominant (hits : List Hit) : List Str → Option Str × ℚ → Option Str × ℚ
  | [], st => st
  | d :: rest, st =>
    pickDominant hits rest
      (if st.2 < groupAvg hits d then (some d, groupAvg hits d) else st)

/-- `dominant_doc`: the document with the strictly-best running mean. -/
def dominantDoc (hits : List Hit) : Option Str :=
  (pickDominant hits (firstKeys (hits.map (fun h => h.doc_id))) (none, 0)).1

/-! ### Ranking and selection -/

/-- The first component of the Python sort key
`(-1 if doc_id == dominant_doc else 0, -similarity)`, shifted to `0/1`. -/
def domFlag (dom : Option Str) (h : Hit) : Nat :=
  if dom = some h.doc_id then 0 else 1

/-- The total preorder realising the Python sort key (dominant first, then
similarity descending). -/
def hitLE (dom : Option Str) (a b : Hit) : Bool :=
  decide (domFlag dom a < domFlag dom b) ||
    (decide (domFlag dom a = domFlag dom b) && decide (b.similarity ≤ a.similarity))

/-- `hits.sort(key=...)` (stable). -/
def sortHits (dom : Option Str) (hits : List Hit) : List Hit :=
  pySort (hitLE dom) hits

/-- The threshold-based selection: all dominant-document chunks with
similarity ≥ 0.3, then the other chunks with similarity ≥
`max(0.3, top_score - 0.15)` (or ≥ 0.3 if there are no dominant chunks). -/
def rankSelect (hits : List Hit) (dom : Option Str) : List Hit :=
  let sorted := sortHits dom hits
  let dominantChunks := sorted.filter (fun h => decide (dom = some h.doc_id))
  let otherChunks := sorted.filter (fun h => !(decide (dom = some h.doc_id)))
  dominantChunks.filter (fun h => decide ((3/10 : ℚ) ≤ h.similarity)) ++
    match dominantChunks with
    | [] => otherChunks.filter (fun h => decide ((3/10 : ℚ) ≤ h.similarity))
    | top :: _ =>
      otherChunks.filter
        (fun h => decide (max (3/10) (top.similarity - 3/20) ≤ h.similarity))

/-- Deduplicate `selected` by hit id, stopping once `limit`
(`max(ensure_min_chunks, top_k)`) entries are kept. -/
def dedupTake (limit : Nat) : List Hit → List Hit → List Hit
  | [], acc => acc
  | h :: rest, acc =>
    if h.id ∈ acc.map (fun x => x.id) then dedupTake limit rest acc
    else
      if limit ≤ (acc ++ [h]).length then acc ++ [h]
      else dedupTake limit rest (acc ++ [h])

/-! ### Expansion (coverage) rounds -/

/-- The fixed broadening-term list used by the fallback expansion loop. -/
def expansionTerms : List Str :=
  [strOf "work schedule", strOf "shift hours", strOf "office timing",
    strOf "late arrivals", strOf "attendance policy",
    strOf "working hour policy", strOf "hours of work", strOf "punch in",
    strOf "timesheet"]

/-- The expansion-round role check: `allowed2 = meta2.get("allowed_roles") or []`
leaves the raw comma-joined string in place when non-empty, so
`role.value not in allowed2` is Python substring membership on it. -/
def expRoleBlocks (ignoreRole : Bool) (role : Role) (field : Str) : Bool :=
  !ignoreRole && !field.isEmpty && !containsSub field role.value

/-- The candidate built for expansion row `r` at within-round index `j`
(`stable_id2 = doc_id + "::exp::" + str(j)`). -/
def mkExpHit (r : ScoredDoc) (j : Nat) : Hit :=
  { id := r.meta.doc_id ++ strOf "::exp::" ++ natStr j
    doc_id := r.meta.doc_id
    chunk := r.doc
    similarity := cosine_to_similarity r.dist
    confidentiality := r.meta.confidentiality_level
    source_reference := r.meta.source_reference }

/-- State threaded through the expansion loop.  `constructed` is a ghost
record of every candidate dictionary the code builds (before the
`seen_ids` dedup check), used to reason about identifier collisions. -/
structure ExpState where
  acc : List Hit
  blocked : Nat
  constructed : List Hit
deriving DecidableEq

/-- Merging of one expansion query result: role check, candidate
construction, dedup by `seen_ids`, early exit at `ensure_min_chunks`. -/
def expandRows (ignoreRole : Bool) (role : Role) (ensureMin : Nat) :
    List ScoredDoc → Nat → ExpState → ExpState
  | [], _, st => st
  | r :: rest, j, st =>
    if expRoleBlocks ignoreRole role r.meta.allowed_roles then
      expandRows ignoreRole role ensureMin rest (j + 1)
        { st with blocked := st.blocked + 1 }
    else
      if (mkExpHit r j).id ∈ st.acc.map (fun x => x.id) then
        expandRows ignoreRole role ensureMin rest (j + 1)
          { st with constructed := st.constructed ++ [mkExpHit r j] }
      else
        if ensureMin ≤ (st.acc ++ [mkExpHit r j]).length then
          { acc := st.acc ++ [mkExpHit r j], blocked := st.blocked,
            constructed := st.constructed ++ [mkExpHit r j] }
        else
          expandRows ignoreRole role ensureMin rest (j + 1)
            { acc := st.acc ++ [mkExpHit r j], blocked := st.blocked,
              constructed := st.constructed ++ [mkExpHit r j] }

/-- The expansion loop over the broadening terms: embed the term, query the
index with the same tenant scope, merge, and stop once the minimum is
reached.  Note the Python loop body contains no `try`/`except`: a
collaborator failure propagates (monadic bind). -/
def expandLoop (embedE : Str → Except Err (List ℚ))
    (queryE : List ℚ → Str → Nat → Except Err (List ScoredDoc))
    (ignoreRole : Bool) (role : Role) (tenant : Str) (topK ensureMin : Nat) :
    List Str → ExpState → Except Err ExpState
  | [], st => .ok st
  | term :: rest, st =>
    match embedE term with
    | .error e => .error e
    | .ok v =>
      match queryE v tenant (topK * 3) with
      | .error e => .error e
      | .ok rows =>
        if ensureMin ≤ (expandRows ignoreRole role ensureMin rows 0 st).acc.length then
          .ok (expandRows ignoreRole role ensureMin rows 0 st)
        else
          expandLoop embedE queryE ignoreRole role tenant topK ensureMin rest
            (expandRows ignoreRole role ensureMin rows 0 st)

/-! ### `RAGSystem.retrieve` -/

/-- The observable outcome of one pass of `retrieve`'s body before the
degraded-retry check: the selected passages, the `blocked_by_role`
counter, the raw primary result count, and the ghost list of expansion
candidates constructed. -/
structure CoreOut where
  finalSelected : List Hit
  blockedByRole : Nat
  resultCount : Nat
  expConstructed : List Hit
deriving DecidableEq

/-- The pure selection pipeline of one pass: primary loop over the raw
result rows, dominant-document choice, rank/select, and dedup/truncate.
Returns (`final_selected` before any expansion, `blocked_by_role`). -/
def coreSelect (role : Role) (ignoreRole : Bool) (minSim : ℚ)
    (detected : List Str) (topK ensureMin : Nat) (res : List ScoredDoc) :
    List Hit × Nat :=
  let pl := primaryLoop role ignoreRole minSim detected res 0 [] 0
  (dedupTake (max ensureMin topK) (rankSelect pl.1 (dominantDoc pl.1)) [], pl.2)

/-- The tail of one pass: run the expansion loop when the selection is
under-filled, otherwise return it as is. -/
def coreFinish (embedE : Str → Except Err (List ℚ))
    (queryE : List ℚ → Str → Nat → Except Err (List ScoredDoc))
    (tenant : Str) (role : Role) (topK ensureMin : Nat) (ignoreRole : Bool)
    (res : List ScoredDoc) (sel : List Hit × Nat) : Except Err CoreOut :=
  if sel.1.length < ensureMin then
    match expandLoop embedE queryE ignoreRole role tenant topK ensureMin
      expansionTerms ⟨sel.1, sel.2, []⟩ with
    | .error e => .error e
    | .ok st => .ok ⟨st.acc, st.blocked, res.length, st.constructed⟩
  else .ok ⟨sel.1, sel.2, res.length, []⟩

/-- One pass of `retrieve`'s body (everything before the
retry-on-zero-role-match check): embed the query, query the index with the
tenant filter and `top_k * 5`, run the primary loop, pick the dominant
document, rank/select/dedup, and run the expansion loop when the result is
under-filled. -/
def retrieveCore (embedE : Str → Except Err (List ℚ))
    (queryE : List ℚ → Str → Nat → Except Err (List ScoredDoc))
    (tenant : Str) (role : Role) (q : Str) (topK : Nat) (minSim : ℚ)
    (ensureMin : Nat) (ignoreRole : Bool) : Except Err CoreOut :=
  match embedE q with
  | .error e => .error e
  | .ok qvec =>
    match queryE qvec tenant (topK * 5) with
    | .error e => .error e
    | .ok res =>
      coreFinish embedE queryE tenant role topK ensureMin ignoreRole res
        (coreSelect role ignoreRole minSim (detectTypes (lowerChars q)) topK
          ensureMin res)

/-- Diagnostic events (`write_audit` calls), plus a marker for the moment
the engine re-invokes itself with role filtering disabled. -/
inductive Event
  | retryDiagnostic (tenant : Str) (roleValue : Str) (q : Str) (resultCount : Nat)
  | gateDisabled
  | finalDiagnostic (chunks : Nat) (blockedByRole : Nat)
deriving DecidableEq

/-- `confidence = final_selected[0]["similarity"] if final_selected else 0.0`. -/
def confidenceOf : List Hit → ℚ
  | [] => 0
  | h :: _ => h.similarity

/-- The terminal part of a `retrieve` call that does not retry: emit the
final diagnostic and return the passages with their confidence. -/
def finishRound (out : CoreOut) : List Event × Except Err (List Hit × ℚ) :=
  ([Event.finalDiagnostic out.finalSelected.length out.blockedByRole],
    .ok (out.finalSelected, confidenceOf out.finalSelected))

/-- `RAGSystem.retrieve` with an explicit recursion budget.  The Python code
recurses (`return self.retrieve(..., ignore_role=True)`) when the pass
produced no passages and the role gate blocked at least one candidate; the
diagnostic is written before the recursive call.  The fuel-0 value is dead
code: `retrieveFuel_elim` proves any budget of at least 2 computes the same
result, because a pass with `ignore_role=True` never increments
`blocked_by_role` and hence never retries. -/
def retrieveFuel (embedE : Str → Except Err (List ℚ))
    (queryE : List ℚ → Str → Nat → Except Err (List ScoredDoc))
    (tenant : Str) (role : Role) (q : Str) (topK : Nat) (minSim : ℚ)
    (ensureMin : Nat) : Nat → Bool → List Event × Except Err (List Hit × ℚ)
  | 0, _ => ([], .ok ([], 0))
  | n + 1, ignoreRole =>
    match retrieveCore embedE queryE tenant role q topK minSim ensureMin ignoreRole with
    | .error e => ([], .error e)
    | .ok out =>
      if out.finalSelected = [] ∧ 0 < out.blockedByRole then
        (Event.retryDiagnostic tenant role.value q out.resultCount ::
          Event.gateDisabled ::
            (retrieveFuel embedE queryE tenant role q topK minSim ensureMin n true).1,
          (retrieveFuel embedE queryE tenant role q topK minSim ensureMin n true).2)
      else
        finishRound out

/-- `RAGSystem.retrieve` (entered with `ignore_role=False`). -/
def retrieve (embedE : Str → Except Err (List ℚ))
    (queryE : List ℚ → Str → Nat → Except Err (List ScoredDoc))
    (tenant : Str) (role : Role) (q : Str) (topK : Nat) (minSim : ℚ)
    (ensureMin : Nat) : List Event × Except Err (List Hit × ℚ) :=
  retrieveFuel embedE queryE tenant role q topK minSim ensureMin 2 false

/-! ### The query endpoint's role handling -/

/-- The string values of the closed role enumeration. -/
def roleEnumStrings : List Str :=
  [strOf "employee", strOf "hr", strOf "ceo", strOf "admin"]

/-- `Role(role_str)`: value-based lookup into the enumeration, raising on a
non-member. -/
def parseRoleStr (s : Str) : Option Role :=
  if s = strOf "employee" then some .employee
  else if s = strOf "hr" then some .hr
  else if s = strOf "ceo" then some .ceo
  else if s = strOf "admin" then some .admin
  else none

/-- `role_str = str(user_payload.get("role", "employee")).lower()`. -/
def resolveRoleStr (payloadRole : Option Str) : Str :=
  lowerChars (payloadRole.getD (strOf "employee"))

/-- Outcome of the query endpoint, separating the InvalidRole client error
from retrieval failures and success. -/
inductive EndpointResult
  | invalidRole (msg : Str)
  | retrievalError (e : Err)
  | success (hits : List Hit) (conf : ℚ)
deriving DecidableEq

/-- `query_endpoint`'s role resolution followed by the retrieval call (with
the default `min_similarity = 0.5` and `ensure_min_chunks = 5`): an
unparseable role fails before `rag.retrieve` — and hence before the vector
index — is invoked. -/
def queryEndpoint (embedE : Str → Except Err (List ℚ))
    (queryE : List ℚ → Str → Nat → Except Err (List ScoredDoc))
    (payloadRole : Option Str) (tenant q : Str) (topK : Nat) : EndpointResult :=
  match parseRoleStr (resolveRoleStr payloadRole) with
  | none => .invalidRole (strOf "Invalid role: " ++ resolveRoleStr payloadRole)
  | some role =>
    match (retrieve embedE queryE tenant role q topK (1/2) 5).2 with
    | .error e => .retrievalError e
    | .ok r => .success r.1 r.2

deriving instance DecidableEq for Except

/-! ## Lemmas about the stable sort -/

theorem pyInsert_perm (le : α → α → Bool) (a : α) (l : List α) :
    (pyInsert le a l).Perm (a :: l) := by
  induction l with
  | nil => exact List.Perm.refl _
  | cons b t ih =>
    by_cases h : le a b
    · rw [pyInsert, if_pos h]
    · rw [pyInsert, if_neg h]
      exact (ih.cons b).trans (List.Perm.swap a b t)

theorem pySort_perm (le : α → α → Bool) (l : List α) : (pySort le l).Perm l := by
  induction l with
  | nil => exact List.Perm.refl _
  | cons a t ih => exact (pyInsert_perm le a (pySort le t)).trans (ih.cons a)

theorem pySort_mem (le : α → α → Bool) (l : List α) (x : α) :
    x ∈ pySort le l ↔ x ∈ l :=
  (pySort_perm le l).mem_iff

theorem pyInsert_pairwise {le : α → α → Bool}
    (htot : ∀ a b, le a b = true ∨ le b a = true)
    (htrans : ∀ a b c, le a b = true → le b c = true → le a c = true)
    (a : α) (l : List α) (hl : l.Pairwise (fun x y => le x y = true)) :
    (pyInsert le a l).Pairwise (fun x y => le x y = true) := by
  induction l with
  | nil => simp [pyInsert]
  | cons b t ih =>
    rcases List.pairwise_cons.mp hl with ⟨hb, ht⟩
    by_cases hab : le a b = true
    · rw [pyInsert, if_pos hab]
      refine List.pairwise_cons.mpr ⟨?_, hl⟩
      intro x hx
      rcases List.mem_cons.mp hx with rfl | hx
      · exact hab
      · exact htrans a b x hab (hb x hx)
    · rw [pyInsert, if_neg hab]
      refine List.pairwise_cons.mpr ⟨?_, ih ht⟩
      intro x hx
      have hmem := (pyInsert_perm le a t).mem_iff.mp hx
      rcases List.mem_cons.mp hmem with rfl | hx2
      · rcases htot x b with h1 | h1
        · exact absurd h1 hab
        · exact h1
      · exact hb x hx2

theorem pySort_pairwise {le : α → α → Bool}
    (htot : ∀ a b, le a b = true ∨ le b a = true)
    (htrans : ∀ a b c, le a b = true → le b c = true → le a c = true)
    (l : List α) : (pySort le l).Pairwise (fun x y => le x y = true) := by
  induction l with
  | nil => simp [pySort]
  | cons a t ih => exact pyInsert_pairwise htot htrans a (pySort le t) ih

/-! ## Lemmas about `chunk_text` (claim C10) -/

theorem joinParas_cons_ne (p : Str) (L : List Str) (h : L ≠ []) :
    joinParas (p :: L) = p ++ strOf "\n\n" ++ joinParas L := by
  cases L with
  | nil => exact absurd rfl h
  | cons q rest => rfl

theorem splitParas_ne_nil (text : Str) : splitParas text ≠ [] := by
  rw [splitParas.eq_def]
  split
  · simp
  · simp
  · split <;> simp

theorem append_sep_ne_nil (cur para : Str) (hc : cur ≠ []) :
    cur ++ strOf "\n\n" ++ para ≠ [] := fun hEq =>
  hc (List.append_eq_nil.mp (List.append_eq_nil.mp hEq).1).1

theorem chunkTextAux_ne_nil (maxLen : Nat) (paras : List Str) (cur : Str)
    (hc : cur ≠ []) : chunkTextAux maxLen paras cur ≠ [] := by
  induction paras generalizing cur with
  | nil => simp [chunkTextAux, hc]
  | cons para rest ih =>
    rw [chunkTextAux]
    by_cases hover : cur ≠ [] ∧ maxLen < cur.length + 2 + para.length
    · rw [if_pos hover]
      simp
    · rw [if_neg hover, if_neg hc]
      exact ih _ (append_sep_ne_nil cur para hc)

theorem joinParas_chunkTextAux (maxLen : Nat) (paras : List Str) (cur : Str)
    (hc : cur ≠ []) (hp : ∀ p ∈ paras, p ≠ []) :
    joinParas (chunkTextAux maxLen paras cur) = joinParas (cur :: paras) := by
  induction paras generalizing cur with
  | nil => simp [chunkTextAux, hc, joinParas]
  | cons para rest ih =>
    have hpara : para ≠ [] := hp para (List.mem_cons_self _ _)
    have hrest : ∀ p ∈ rest, p ≠ [] := fun p hpmem => hp p (List.mem_cons_of_mem _ hpmem)
    rw [chunkTextAux]
    by_cases hover : cur ≠ [] ∧ maxLen < cur.length + 2 + para.length
    · rw [if_pos hover]
      rw [joinParas_cons_ne cur _ (chunkTextAux_ne_nil maxLen rest para hpara),
        ih para hpara hrest, joinParas_cons_ne cur (para :: rest) (by simp)]
    · rw [if_neg hover, if_neg hc]
      have hcur2 : cur ++ strOf "\n\n" ++ para ≠ [] := by simp [hc]
      rw [ih _ hcur2 hrest]
      cases rest with
      | nil => simp [joinParas]
      | cons r rs =>
        rw [joinParas_cons_ne _ _ (by simp), joinParas_cons_ne cur (para :: r :: rs) (by simp),
          joinParas_cons_ne para (r :: rs) (by simp)]
        simp [List.append_assoc]

theorem joinParas_splitParas (text : Str) : joinParas (splitParas text) = text := by
  induction text using splitParas.induct with
  | case1 => rfl
  | case2 rest ih =>
    rw [splitParas, joinParas_cons_ne _ _ (splitParas_ne_nil rest), ih]
    rfl
  | case3 c rest h hnil ih =>
    exact absurd hnil (splitParas_ne_nil rest)
  | case4 c rest h p ps hres ih =>
    have hsp : splitParas (c :: rest) = (c :: p) :: ps := by
      rw [splitParas.eq_def]
      split
      · rename_i heq
        exact absurd heq (by simp)
      · rename_i rest1 heq
        injection heq with hc1 hr1
        exact (h rest1 hc1 hr1).elim
      · rename_i c2 rest2 heq
        injection heq with hc2 hrest2
        subst hc2
        subst hrest2
        rw [hres]
    rw [hsp]
    rw [hres] at ih
    cases ps with
    | nil =>
      simp only [joinParas] at ih ⊢
      rw [ih]
    | cons p2 ps2 =>
      rw [joinParas_cons_ne _ _ (by simp)] at ih ⊢
      rw [← ih]
      simp

/-- Claim C10 (counterexample): `chunk_text` is not lossless — on the text
consisting of a single paragraph break, with the default positive
`max_len = 800`, it returns no chunks at all, so joining the chunks with
the paragraph separator yields the empty text instead of the original. -/
theorem chunk_text_roundtrip_cex :
    0 < 800 ∧ chunk_text (strOf "\n\n") 800 = [] ∧
      joinParas (chunk_text (strOf "\n\n") 800) ≠ strOf "\n\n" := by
  refine ⟨by decide, by decide, by decide⟩

/-- Claim C10 (amended): the chunking round-trip holds for the empty text,
and for every text and every `max_len` provided that splitting the text on
the paragraph separator produces no empty paragraph (the loop silently
drops an empty paragraph whenever its accumulator is empty, losing the
adjoining separators). -/
theorem chunk_text_roundtrip_amended :
    (∀ maxLen : Nat, joinParas (chunk_text [] maxLen) = []) ∧
      ∀ (text : Str) (maxLen : Nat), (∀ p ∈ splitParas text, p ≠ []) →
        joinParas (chunk_text text maxLen) = text := by
  constructor
  · intro maxLen
    simp [chunk_text, splitParas, chunkTextAux, joinParas]
  · intro text maxLen hp
    rw [chunk_text]
    cases hsp : splitParas text with
    | nil => exact absurd hsp (splitParas_ne_nil text)
    | cons p ps =>
      have hpne : p ≠ [] := hp p (by rw [hsp]; exact List.mem_cons_self _ _)
      have hpsne : ∀ x ∈ ps, x ≠ [] := fun x hx => hp x (by rw [hsp]; exact List.mem_cons_of_mem _ hx)
      rw [chunkTextAux, if_neg (by simp), if_pos rfl,
        joinParas_chunkTextAux maxLen ps p hpne hpsne, ← hsp,
        joinParas_splitParas]

/-- Claim C10 (amended, witness): on the text `"a\n\nbb"` with `max_len = 3`
(which forces a flush into two chunks) the round-trip reconstructs the
text exactly. -/
theorem chunk_text_roundtrip_amended_witness :
    (∀ p ∈ splitParas (strOf "a\n\nbb"), p ≠ []) ∧
      joinParas (chunk_text (strOf "a\n\nbb") 3) = strOf "a\n\nbb" :=
  ⟨by decide, chunk_text_roundtrip_amended.2 (strOf "a\n\nbb") 3 (by decide)⟩

/-! ## Claim C7: the confidence scalar -/

theorem retrieve_ok_conf (embedE : Str → Except Err (List ℚ))
    (queryE : List ℚ → Str → Nat → Except Err (List ScoredDoc))
    (tenant : Str) (role : Role) (q : Str) (topK : Nat) (minSim : ℚ)
    (ensureMin : Nat) (evs : List Event) (hits : List Hit) (conf : ℚ)
    (h : retrieve embedE queryE tenant role q topK minSim ensureMin
      = (evs, .ok (hits, conf))) :
    conf = confidenceOf hits ∧
      (hits = [] ∨ ∃ ig out,
        retrieveCore embedE queryE tenant role q topK minSim ensureMin ig = .ok out ∧
          hits = out.finalSelected) := by
  rw [retrieve, retrieveFuel] at h
  split at h
  · exact absurd (congrArg Prod.snd h) (by simp)
  · rename_i out h1
    split at h
    · rename_i hretry
      have h3 := congrArg Prod.snd h
      simp only at h3
      rw [retrieveFuel] at h3
      split at h3
      · exact absurd h3 (by simp)
      · rename_i out2 h2
        split at h3
        · rename_i hretry2
          rw [retrieveFuel] at h3
          simp only [Except.ok.injEq, Prod.mk.injEq] at h3
          obtain ⟨h4, h5⟩ := h3
          subst h4
          subst h5
          exact ⟨rfl, Or.inl rfl⟩
        · rename_i hretry2
          simp only [finishRound, Except.ok.injEq, Prod.mk.injEq] at h3
          obtain ⟨h4, h5⟩ := h3
          subst h4
          subst h5
          exact ⟨rfl, Or.inr ⟨true, out2, h2, rfl⟩⟩
    · rename_i hretry
      have h3 := congrArg Prod.snd h
      simp only [finishRound, Except.ok.injEq, Prod.mk.injEq] at h3
      obtain ⟨h4, h5⟩ := h3
      subst h4
      subst h5
      exact ⟨rfl, Or.inr ⟨false, out, h1, rfl⟩⟩

/-- Claim C7: the confidence returned by `retrieve` is the similarity of
the top-ranked passage when the final list is non-empty and `0.0` when it
is empty, and raising the top passage's similarity (holding the rest
fixed) never decreases it. -/
theorem confidence_spec :
    confidenceOf [] = 0 ∧
      (∀ (h : Hit) (t : List Hit), confidenceOf (h :: t) = h.similarity) ∧
      (∀ (h h' : Hit) (t : List Hit), h.similarity ≤ h'.similarity →
        confidenceOf (h :: t) ≤ confidenceOf (h' :: t)) ∧
      ∀ (embedE : Str → Except Err (List ℚ))
        (queryE : List ℚ → Str → Nat → Except Err (List ScoredDoc))
        (tenant : Str) (role : Role) (q : Str) (topK : Nat) (minSim : ℚ)
        (ensureMin : Nat) (evs : List Event) (hits : List Hit) (conf : ℚ),
        retrieve embedE queryE tenant role q topK minSim ensureMin
          = (evs, .ok (hits, conf)) → conf = confidenceOf hits := by
  refine ⟨rfl, fun h t => rfl, fun h h' t hle => hle, ?_⟩
  intro embedE queryE tenant role q topK minSim ensureMin evs hits conf h
  exact (retrieve_ok_conf embedE queryE tenant role q topK minSim ensureMin
    evs hits conf h).1

/-- Claim C7 (witness): on an empty store the retrieval returns the empty
list with confidence `0.0`, and the monotonicity instance holds at a
concrete pair of passages. -/
theorem confidence_spec_witness :
    retrieve (fun _ => .ok []) (fun _ _ _ => .ok []) (strOf "t") Role.employee
        (strOf "q") 5 (1/2) 5 = ([Event.finalDiagnostic 0 0], .ok ([], 0)) ∧
      (0 : ℚ) = confidenceOf [] :=
  ⟨by decide, confidence_spec.2.2.2 (fun _ => .ok []) (fun _ _ _ => .ok [])
    (strOf "t") Role.employee (strOf "q") 5 (1/2) 5
    [Event.finalDiagnostic 0 0] [] 0 (by decide)⟩

/-! ## Claim C2: the primary-round role gate -/

/-- The hits produced by the primary loop from the remaining rows, with `i`
the index of the first remaining row in the raw result. -/
def buildPrimary (role : Role) (ignoreRole : Bool) (minSim : ℚ)
    (detected : List Str) : List ScoredDoc → Nat → List Hit
  | [], _ => []
  | r :: rest, i =>
    if roleBlocks ignoreRole role r.meta.allowed_roles then
      buildPrimary role ignoreRole minSim detected rest (i + 1)
    else if penaltySkips minSim detected r then
      buildPrimary role ignoreRole minSim detected rest (i + 1)
    else
      mkPrimaryHit r i :: buildPrimary role ignoreRole minSim detected rest (i + 1)

theorem primaryLoop_eq (role : Role) (ignoreRole : Bool) (minSim : ℚ)
    (detected : List Str) (rows : List ScoredDoc) (i : Nat) (hits : List Hit)
    (blocked : Nat) :
    primaryLoop role ignoreRole minSim detected rows i hits blocked
      = (hits ++ buildPrimary role ignoreRole minSim detected rows i,
          blocked + rows.countP (fun r => roleBlocks ignoreRole role r.meta.allowed_roles)) := by
  induction rows generalizing i hits blocked with
  | nil => simp [primaryLoop, buildPrimary]
  | cons r rest ih =>
    rw [primaryLoop, buildPrimary]
    by_cases hb : roleBlocks ignoreRole role r.meta.allowed_roles
    · rw [if_pos hb, if_pos hb, ih]
      simp [Prod.ext_iff, List.countP_cons, hb]
      try omega
    · have hb0 : roleBlocks ignoreRole role r.meta.allowed_roles = false := by
        simpa using hb
      by_cases hp : penaltySkips minSim detected r
      · rw [if_neg hb, if_neg hb, if_pos hp, if_pos hp, ih]
        simp [Prod.ext_iff, List.countP_cons, hb0]
        try omega
      · rw [if_neg hb, if_neg hb, if_neg hp, if_neg hp, ih]
        simp [Prod.ext_iff, List.countP_cons, hb0]
        try omega

theorem buildPrimary_eq_filter (role : Role) (ignoreRole : Bool) (minSim : ℚ)
    (detected : List Str) (rows : List ScoredDoc) (i : Nat) :
    buildPrimary role ignoreRole minSim detected rows i
      = (((List.enumFrom i rows).filter
            (fun p => !(roleBlocks ignoreRole role p.2.meta.allowed_roles))).filter
          (fun p => !(penaltySkips minSim detected p.2))).map
        (fun p => mkPrimaryHit p.2 p.1) := by
  induction rows generalizing i with
  | nil => simp [buildPrimary]
  | cons r rest ih =>
    rw [buildPrimary,
      show List.enumFrom i (r :: rest) = (i, r) :: List.enumFrom (i + 1) rest from rfl]
    by_cases hb : roleBlocks ignoreRole role r.meta.allowed_roles
    · rw [if_pos hb]
      simp [List.filter_cons, hb, ih (i + 1)]
    · have hb0 : roleBlocks ignoreRole role r.meta.allowed_roles = false := by
        simpa using hb
      rw [if_neg hb]
      by_cases hp : penaltySkips minSim detected r
      · rw [if_pos hp]
        simp [List.filter_cons, hb0, hp, ih (i + 1)]
      · have hp0 : penaltySkips minSim detected r = false := by simpa using hp
        rw [if_neg hp]
        simp [List.filter_cons, hb0, hp0, ih (i + 1)]

theorem roleBlocks_false_iff (role : Role) (field : Str) :
    roleBlocks false role field = true ↔
      (parseRoles field ≠ [] ∧ role.value ∉ parseRoles field) := by
  simp [roleBlocks, List.isEmpty_iff]

/-- Claim C2: on a primary round with role filtering enabled, the candidates
surviving the role gate are exactly those whose parsed allowed-roles list
is empty or contains the requester's role; the hits are obtained from
exactly those survivors (by the subsequent document-type stage and hit
construction), and `blocked_by_role` counts exactly the candidates whose
non-empty allowed-roles list misses the role. -/
theorem role_gate_spec (role : Role) (minSim : ℚ) (detected : List Str)
    (rows : List ScoredDoc) :
    (primaryLoop role false minSim detected rows 0 [] 0).2
        = rows.countP (fun r => decide (parseRoles r.meta.allowed_roles ≠ [] ∧
            role.value ∉ parseRoles r.meta.allowed_roles)) ∧
      rows.filter (fun r => !(roleBlocks false role r.meta.allowed_roles))
        = rows.filter (fun r => decide (parseRoles r.meta.allowed_roles = [] ∨
            role.value ∈ parseRoles r.meta.allowed_roles)) ∧
      (primaryLoop role false minSim detected rows 0 [] 0).1
        = (((List.enumFrom 0 rows).filter
              (fun p => !(roleBlocks false role p.2.meta.allowed_roles))).filter
            (fun p => !(penaltySkips minSim detected p.2))).map
          (fun p => mkPrimaryHit p.2 p.1) := by
  refine ⟨?_, ?_, ?_⟩
  · rw [primaryLoop_eq]
    simp only [Nat.zero_add]
    refine List.countP_congr (fun r _ => ?_)
    by_cases h1 : parseRoles r.meta.allowed_roles = [] <;>
      by_cases h2 : role.value ∈ parseRoles r.meta.allowed_roles <;>
        simp [roleBlocks, List.isEmpty_iff, h1, h2]
  · refine List.filter_congr (fun r _ => ?_)
    by_cases h1 : parseRoles r.meta.allowed_roles = [] <;>
      by_cases h2 : role.value ∈ parseRoles r.meta.allowed_roles <;>
        simp [roleBlocks, List.isEmpty_iff, h1, h2]
  · rw [primaryLoop_eq, buildPrimary_eq_filter]
    simp

/-! ## Claim C4: dominant-document selection -/

theorem pickDominant_spec (hits : List Hit) (ks : List Str) (b : Option Str) (v : ℚ) :
    (pickDominant hits ks (b, v) = (b, v) ∧ ∀ d ∈ ks, groupAvg hits d ≤ v) ∨
      (∃ d pre post, ks = pre ++ d :: post ∧
        (pickDominant hits ks (b, v)).1 = some d ∧
        (pickDominant hits ks (b, v)).2 = groupAvg hits d ∧
        v < groupAvg hits d ∧
        (∀ d' ∈ pre, groupAvg hits d' < groupAvg hits d) ∧
        (∀ d' ∈ post, groupAvg hits d' ≤ groupAvg hits d)) := by
  induction ks generalizing b v with
  | nil => exact Or.inl ⟨rfl, by simp⟩
  | cons e ks ih =>
    by_cases he : v < groupAvg hits e
    · have hstep : pickDominant hits (e :: ks) (b, v)
          = pickDominant hits ks (some e, groupAvg hits e) := by
        rw [pickDominant, if_pos he]
      rcases ih (some e) (groupAvg hits e) with ⟨heq, hall⟩ | ⟨d, pre, post, hsplit, h1, h2, h3, h4, h5⟩
      · refine Or.inr ⟨e, [], ks, by simp, ?_, ?_, he, by simp, hall⟩
        · rw [hstep, heq]
        · rw [hstep, heq]
      · refine Or.inr ⟨d, e :: pre, post, by rw [hsplit]; rfl, ?_, ?_, lt_trans he h3, ?_, h5⟩
        · rw [hstep, h1]
        · rw [hstep, h2]
        · intro d' hd'
          rcases List.mem_cons.mp hd' with rfl | hd'
          · exact h3
          · exact h4 d' hd'
    · have hstep : pickDominant hits (e :: ks) (b, v) = pickDominant hits ks (b, v) := by
        rw [pickDominant, if_neg he]
      rcases ih b v with ⟨heq, hall⟩ | ⟨d, pre, post, hsplit, h1, h2, h3, h4, h5⟩
      · refine Or.inl ⟨by rw [hstep, heq], ?_⟩
        intro d hd
        rcases List.mem_cons.mp hd with rfl | hd
        · exact le_of_not_lt he
        · exact hall d hd
      · refine Or.inr ⟨d, e :: pre, post, by rw [hsplit]; rfl, ?_, ?_, h3, ?_, h5⟩
        · rw [hstep, h1]
        · rw [hstep, h2]
        · intro d' hd'
          rcases List.mem_cons.mp hd' with rfl | hd'
          · exact lt_of_le_of_lt (le_of_not_lt he) h3
          · exact h4 d' hd'

/-- Claim C4 (amended): whenever some document group has positive mean
similarity, the dominant document is the group with the highest mean, and
among groups tied at the highest mean the one whose document appears first
in the candidate order wins (there is no maximum-similarity and no
lexicographic tie-break); when every group mean is non-positive, no
dominant document is selected at all. -/
theorem dominant_doc_amended (hits : List Hit) :
    ((∃ d ∈ firstKeys (hits.map (fun h => h.doc_id)), 0 < groupAvg hits d) →
      ∃ d pre post, firstKeys (hits.map (fun h => h.doc_id)) = pre ++ d :: post ∧
        dominantDoc hits = some d ∧ 0 < groupAvg hits d ∧
        (∀ d' ∈ pre, groupAvg hits d' < groupAvg hits d) ∧
        (∀ d' ∈ post, groupAvg hits d' ≤ groupAvg hits d)) ∧
      ((∀ d ∈ firstKeys (hits.map (fun h => h.doc_id)), groupAvg hits d ≤ 0) →
        dominantDoc hits = none) := by
  constructor
  · intro hex
    rcases pickDominant_spec hits (firstKeys (hits.map (fun h => h.doc_id))) none 0 with
      ⟨heq, hall⟩ | ⟨d, pre, post, hsplit, h1, h2, h3, h4, h5⟩
    · rcases hex with ⟨d, hd, hpos⟩
      exact absurd (hall d hd) (not_le.mpr hpos)
    · exact ⟨d, pre, post, hsplit, h1, h3, h4, h5⟩
  · intro hall
    rcases pickDominant_spec hits (firstKeys (hits.map (fun h => h.doc_id))) none 0 with
      ⟨heq, _⟩ | ⟨d, pre, post, hsplit, h1, h2, h3, h4, h5⟩
    · rw [dominantDoc, heq]
    · have hd : d ∈ firstKeys (hits.map (fun h => h.doc_id)) := by
        rw [hsplit]
        exact List.mem_append_right _ (List.mem_cons_self _ _)
      exact absurd (hall d hd) (not_le.mpr h3)

/-- A concrete candidate list on which the code's tie-break diverges from
the specified one: documents `a` (one passage, similarity 2/5) and `b`
(passages 1/2 and 3/10) have equal mean 2/5, and `b` holds the higher
maximum similarity. -/
def c4hits : List Hit :=
  [ ⟨strOf "ida", strOf "a", strOf "ca", 2/5, strOf "internal", []⟩,
    ⟨strOf "idb1", strOf "b", strOf "cb1", 1/2, strOf "internal", []⟩,
    ⟨strOf "idb2", strOf "b", strOf "cb2", 3/10, strOf "internal", []⟩ ]

/-- Claim C4 (counterexample): on `c4hits` the groups of `a` and `b` have
equal mean similarity and `b` has the strictly higher maximum single
similarity, so the claimed tie-break selects `b`; the code instead keeps
the first-encountered group `a` (ties are never re-examined, and no
maximum-similarity or lexicographic comparison happens). -/
theorem dominant_doc_cex :
    groupAvg c4hits (strOf "a") = groupAvg c4hits (strOf "b") ∧
      (∀ h ∈ groupHits c4hits (strOf "a"), h.similarity ≤ 2/5) ∧
      (∃ h ∈ groupHits c4hits (strOf "b"), h.similarity = 1/2) ∧
      (2/5 : ℚ) < 1/2 ∧
      dominantDoc c4hits = some (strOf "a") ∧
      dominantDoc c4hits ≠ some (strOf "b") := by
  have hga : groupAvg c4hits (strOf "a") = 2/5 := by
    simp [groupAvg, groupHits, c4hits, List.filter, strOf]
  have hgb : groupAvg c4hits (strOf "b") = 2/5 := by
    simp [groupAvg, groupHits, c4hits, List.filter, strOf]
    norm_num
  have hdom : dominantDoc c4hits = some (strOf "a") := by
    simp [dominantDoc, c4hits, firstKeys, firstKeysAux, pickDominant, groupAvg,
      groupHits, List.filter, strOf]
    norm_num
  have hgha : groupHits c4hits (strOf "a")
      = [⟨strOf "ida", strOf "a", strOf "ca", 2/5, strOf "internal", []⟩] := by
    simp [groupHits, c4hits, List.filter, strOf]
  refine ⟨by rw [hga, hgb], ?_, ?_, by norm_num, hdom, by rw [hdom]; simp [strOf]⟩
  · intro h hmem
    rw [hgha] at hmem
    rcases List.mem_singleton.mp hmem with rfl
    norm_num
  · refine ⟨⟨strOf "idb1", strOf "b", strOf "cb1", 1/2, strOf "internal", []⟩, ?_, rfl⟩
    simp [groupHits, c4hits, List.filter, strOf]

/-- Claim C4 (amended, witness): on `c4hits` the positive-mean hypothesis
holds and the amended selection property is realised. -/
theorem dominant_doc_amended_witness :
    (∃ d ∈ firstKeys (c4hits.map (fun h => h.doc_id)), 0 < groupAvg c4hits d) ∧
      (∃ d pre post, firstKeys (c4hits.map (fun h => h.doc_id)) = pre ++ d :: post ∧
        dominantDoc c4hits = some d ∧ 0 < groupAvg c4hits d ∧
        (∀ d' ∈ pre, groupAvg c4hits d' < groupAvg c4hits d) ∧
        (∀ d' ∈ post, groupAvg c4hits d' ≤ groupAvg c4hits d)) := by
  have hex : ∃ d ∈ firstKeys (c4hits.map (fun h => h.doc_id)), 0 < groupAvg c4hits d := by
    refine ⟨strOf "a", by simp [firstKeys, firstKeysAux, c4hits, strOf], ?_⟩
    have hga : groupAvg c4hits (strOf "a") = 2/5 := by
      simp [groupAvg, groupHits, c4hits, List.filter, strOf]
    rw [hga]
    norm_num
  exact ⟨hex, (dominant_doc_amended c4hits).1 hex⟩

/-! ## Claim C5: ranking threshold policy -/

/-- Descending similarity order. -/
def simSortedDesc (l : List Hit) : Prop :=
  l.Pairwise (fun a b => b.similarity ≤ a.similarity)

/-- The top similarity of the dominant group as read by the code
(`dominant_chunks[0]["similarity"]` on the sorted list; `0` when the group
is empty, in which case the code never reads it). -/
def domTop (hits : List Hit) (dom : Option Str) : ℚ :=
  match (sortHits dom hits).filter (fun h => decide (dom = some h.doc_id)) with
  | [] => 0
  | top :: _ => top.similarity

theorem hitLE_total (dom : Option Str) (a b : Hit) :
    hitLE dom a b = true ∨ hitLE dom b a = true := by
  simp only [hitLE, Bool.or_eq_true, Bool.and_eq_true, decide_eq_true_eq]
  rcases lt_trichotomy (domFlag dom a) (domFlag dom b) with h | h | h
  · exact Or.inl (Or.inl h)
  · rcases le_total b.similarity a.similarity with hs | hs
    · exact Or.inl (Or.inr ⟨h, hs⟩)
    · exact Or.inr (Or.inr ⟨h.symm, hs⟩)
  · exact Or.inr (Or.inl h)

theorem hitLE_trans (dom : Option Str) (a b c : Hit) :
    hitLE dom a b = true → hitLE dom b c = true → hitLE dom a c = true := by
  simp only [hitLE, Bool.or_eq_true, Bool.and_eq_true, decide_eq_true_eq]
  rintro (hab | ⟨hab, hs⟩) (hbc | ⟨hbc, hs2⟩)
  · exact Or.inl (lt_trans hab hbc)
  · exact Or.inl (lt_of_lt_of_eq hab hbc)
  · exact Or.inl (lt_of_eq_of_lt hab hbc)
  · exact Or.inr ⟨hab.trans hbc, le_trans hs2 hs⟩

theorem sortHits_perm (dom : Option Str) (hits : List Hit) :
    (sortHits dom hits).Perm hits := pySort_perm _ hits

theorem sortHits_pairwise (dom : Option Str) (hits : List Hit) :
    (sortHits dom hits).Pairwise (fun a b => hitLE dom a b = true) :=
  pySort_pairwise (hitLE_total dom) (hitLE_trans dom) hits

theorem simSortedDesc_of_pairwise_hitLE (dom : Option Str) (l : List Hit)
    (hl : l.Pairwise (fun a b => hitLE dom a b = true))
    (hflag : ∀ a ∈ l, ∀ b ∈ l, domFlag dom a = domFlag dom b) :
    simSortedDesc l := by
  refine List.Pairwise.imp_of_mem ?_ hl
  intro a b ha hb hab
  simp only [hitLE, Bool.or_eq_true, Bool.and_eq_true, decide_eq_true_eq] at hab
  rcases hab with h | ⟨_, h⟩
  · exact absurd (hflag a ha b hb) (Nat.ne_of_lt h)
  · exact h

theorem mem_filter_dom_flag (dom : Option Str) (l : List Hit) (h : Hit)
    (hm : h ∈ l.filter (fun h => decide (dom = some h.doc_id))) :
    domFlag dom h = 0 := by
  rcases List.mem_filter.mp hm with ⟨_, hp⟩
  simp only [decide_eq_true_eq] at hp
  simp [domFlag, hp]

theorem mem_filter_other_flag (dom : Option Str) (l : List Hit) (h : Hit)
    (hm : h ∈ l.filter (fun h => !(decide (dom = some h.doc_id)))) :
    domFlag dom h = 1 := by
  rcases List.mem_filter.mp hm with ⟨_, hp⟩
  simp only [Bool.not_eq_true', decide_eq_false_iff_not] at hp
  simp [domFlag, hp]

/-- Claim C5: the selected list (before dedup/truncation) is the
dominant-document passages with similarity ≥ 0.3 in descending similarity
order, followed by the non-dominant passages with similarity ≥ 0.3 and
within 0.15 of the dominant group's top similarity, also descending; with
no dominant passages it is all passages with similarity ≥ 0.3 descending. -/
theorem ranking_threshold_spec (hits : List Hit) (dom : Option Str) :
    ∃ A B, rankSelect hits dom = A ++ B ∧
      A.Perm (hits.filter (fun h => decide ((3/10 : ℚ) ≤ h.similarity) &&
        decide (dom = some h.doc_id))) ∧
      simSortedDesc A ∧ simSortedDesc B ∧
      (hits.filter (fun h => decide (dom = some h.doc_id)) = [] →
        B.Perm (hits.filter (fun h => decide ((3/10 : ℚ) ≤ h.similarity) &&
          !(decide (dom = some h.doc_id))))) ∧
      (hits.filter (fun h => decide (dom = some h.doc_id)) ≠ [] →
        (∀ h ∈ hits, dom = some h.doc_id → h.similarity ≤ domTop hits dom) ∧
        (∃ h ∈ hits, dom = some h.doc_id ∧ h.similarity = domTop hits dom) ∧
        B.Perm (hits.filter (fun h =>
          (decide ((3/10 : ℚ) ≤ h.similarity) &&
            decide (domTop hits dom - 3/20 ≤ h.similarity)) &&
          !(decide (dom = some h.doc_id))))) := by
  have hperm : (sortHits dom hits).Perm hits := sortHits_perm dom hits
  have hpw : (sortHits dom hits).Pairwise (fun a b => hitLE dom a b = true) :=
    sortHits_pairwise dom hits
  have hdcperm : ((sortHits dom hits).filter
      (fun h => decide (dom = some h.doc_id))).Perm
        (hits.filter (fun h => decide (dom = some h.doc_id))) :=
    hperm.filter _
  have hdc_nil_iff : (sortHits dom hits).filter (fun h => decide (dom = some h.doc_id)) = []
      ↔ hits.filter (fun h => decide (dom = some h.doc_id)) = [] := by
    constructor
    · intro hx
      exact (hx ▸ hdcperm).nil_eq.symm
    · intro hx
      exact (hx ▸ hdcperm.symm).nil_eq.symm
  have hApw : simSortedDesc (((sortHits dom hits).filter
      (fun h => decide (dom = some h.doc_id))).filter
        (fun h => decide ((3/10 : ℚ) ≤ h.similarity))) := by
    refine simSortedDesc_of_pairwise_hitLE dom _
      (List.Pairwise.sublist ((List.filter_sublist _).trans (List.filter_sublist _)) hpw) ?_
    intro a ha b hb
    rw [mem_filter_dom_flag dom _ a ((List.filter_sublist _).subset ha),
      mem_filter_dom_flag dom _ b ((List.filter_sublist _).subset hb)]
  cases hdc : (sortHits dom hits).filter (fun h => decide (dom = some h.doc_id)) with
  | nil =>
    refine ⟨[], ((sortHits dom hits).filter (fun h => !(decide (dom = some h.doc_id)))).filter
      (fun h => decide ((3/10 : ℚ) ≤ h.similarity)), ?_, ?_, ?_, ?_, ?_, ?_⟩
    · simp only [rankSelect, hdc, List.filter_nil, List.nil_append]
    · have hz : hits.filter (fun h => decide (dom = some h.doc_id)) = [] := hdc_nil_iff.mp hdc
      rw [← List.filter_filter, hz]
      simp
    · exact List.Pairwise.nil
    · refine simSortedDesc_of_pairwise_hitLE dom _
        (List.Pairwise.sublist ((List.filter_sublist _).trans (List.filter_sublist _)) hpw) ?_
      intro a ha b hb
      rw [mem_filter_other_flag dom _ a ((List.filter_sublist _).subset ha),
        mem_filter_other_flag dom _ b ((List.filter_sublist _).subset hb)]
    · intro _
      rw [List.filter_filter]
      exact hperm.filter _
    · intro hne
      exact absurd (hdc_nil_iff.mp hdc) hne
  | cons top rest =>
    have htop : domTop hits dom = top.similarity := by
      rw [domTop, hdc]
    refine ⟨((sortHits dom hits).filter (fun h => decide (dom = some h.doc_id))).filter
        (fun h => decide ((3/10 : ℚ) ≤ h.similarity)),
      ((sortHits dom hits).filter (fun h => !(decide (dom = some h.doc_id)))).filter
        (fun h => decide (max (3/10) (top.similarity - 3/20) ≤ h.similarity)),
      ?_, ?_, hApw, ?_, ?_, ?_⟩
    · simp only [rankSelect, hdc]
    · rw [List.filter_filter]
      exact hperm.filter _
    · refine simSortedDesc_of_pairwise_hitLE dom _
        (List.Pairwise.sublist ((List.filter_sublist _).trans (List.filter_sublist _)) hpw) ?_
      intro a ha b hb
      rw [mem_filter_other_flag dom _ a ((List.filter_sublist _).subset ha),
        mem_filter_other_flag dom _ b ((List.filter_sublist _).subset hb)]
    · intro hnil
      exact absurd (hdc_nil_iff.mpr hnil) (by rw [hdc]; simp)
    · intro _
      have hdcpw : simSortedDesc (top :: rest) := by
        rw [← hdc]
        refine simSortedDesc_of_pairwise_hitLE dom _
          (List.Pairwise.sublist (List.filter_sublist _) hpw) ?_
        intro a ha b hb
        rw [mem_filter_dom_flag dom _ a ha, mem_filter_dom_flag dom _ b hb]
      refine ⟨?_, ?_, ?_⟩
      · intro h hmem hd
        have hmem2 : h ∈ hits.filter (fun h => decide (dom = some h.doc_id)) :=
          List.mem_filter.mpr ⟨hmem, by simp [hd]⟩
        have hmem3 : h ∈ top :: rest := by
          rw [← hdc]
          exact (hdcperm.mem_iff).mpr hmem2
        rw [htop]
        rcases List.mem_cons.mp hmem3 with rfl | hmem4
        · exact le_refl _
        · exact (List.pairwise_cons.mp hdcpw).1 h hmem4
      · have htopmem : top ∈ hits.filter (fun h => decide (dom = some h.doc_id)) := by
          rw [← hdcperm.mem_iff, hdc]
          exact List.mem_cons_self _ _
        rcases List.mem_filter.mp htopmem with ⟨hmem, hp⟩
        simp only [decide_eq_true_eq] at hp
        exact ⟨top, hmem, hp, htop.symm⟩
      · rw [htop]
        have hcong : ∀ h : Hit, (decide (max (3/10 : ℚ) (top.similarity - 3/20) ≤ h.similarity) &&
            !(decide (dom = some h.doc_id)))
              = ((decide ((3/10 : ℚ) ≤ h.similarity) &&
                  decide (top.similarity - 3/20 ≤ h.similarity)) &&
                !(decide (dom = some h.doc_id))) := by
          intro h
          by_cases h1 : (3/10 : ℚ) ≤ h.similarity <;>
            by_cases h2 : top.similarity - 3/20 ≤ h.similarity <;>
              simp [max_le_iff, h1, h2]
        rw [List.filter_filter]
        rw [List.filter_congr (fun h _ => hcong h)]
        exact hperm.filter _

/-! ## Claim C3: the one-shot degraded retry -/

theorem roleBlocks_ignore (role : Role) (field : Str) :
    roleBlocks true role field = false := by
  simp [roleBlocks]

theorem expRoleBlocks_ignore (role : Role) (field : Str) :
    expRoleBlocks true role field = false := by
  simp [expRoleBlocks]

theorem expandRows_ignore_blocked (role : Role) (ensureMin : Nat)
    (rows : List ScoredDoc) (j : Nat) (st : ExpState) :
    (expandRows true role ensureMin rows j st).blocked = st.blocked := by
  induction rows generalizing j st with
  | nil => rfl
  | cons r rest ih =>
    rw [expandRows, expRoleBlocks_ignore]
    simp only [Bool.false_eq_true, if_false]
    by_cases hseen : (mkExpHit r j).id ∈ st.acc.map (fun x => x.id)
    · rw [if_pos hseen, ih]
    · rw [if_neg hseen]
      by_cases hfull : ensureMin ≤ (st.acc ++ [mkExpHit r j]).length
      · rw [if_pos hfull]
      · rw [if_neg hfull, ih]

theorem expandLoop_ignore_blocked (embedE : Str → Except Err (List ℚ))
    (queryE : List ℚ → Str → Nat → Except Err (List ScoredDoc))
    (role : Role) (tenant : Str) (topK ensureMin : Nat) (terms : List Str)
    (st st' : ExpState)
    (h : expandLoop embedE queryE true role tenant topK ensureMin terms st = .ok st') :
    st'.blocked = st.blocked := by
  induction terms generalizing st with
  | nil =>
    rw [expandLoop] at h
    cases h
    rfl
  | cons term rest ih =>
    rw [expandLoop] at h
    split at h
    · exact absurd h (by simp)
    · split at h
      · exact absurd h (by simp)
      · split at h
        · cases h
          exact expandRows_ignore_blocked role ensureMin _ 0 st
        · rw [ih _ h, expandRows_ignore_blocked role ensureMin _ 0 st]

theorem retrieveCore_ignore_blocked (embedE : Str → Except Err (List ℚ))
    (queryE : List ℚ → Str → Nat → Except Err (List ScoredDoc))
    (tenant : Str) (role : Role) (q : Str) (topK : Nat) (minSim : ℚ)
    (ensureMin : Nat) (out : CoreOut)
    (h : retrieveCore embedE queryE tenant role q topK minSim ensureMin true = .ok out) :
    out.blockedByRole = 0 := by
  rw [retrieveCore] at h
  split at h
  · exact absurd h (by simp)
  · split at h
    · exact absurd h (by simp)
    · rename_i qvec hqv res hres
      have hsel : (coreSelect role true minSim (detectTypes (lowerChars q)) topK
          ensureMin res).2 = 0 := by
        rw [coreSelect]
        simp only [primaryLoop_eq, Nat.zero_add]
        exact List.countP_eq_zero.mpr (fun r _ => by simp [roleBlocks])
      rw [coreFinish] at h
      split at h
      · split at h
        · exact absurd h (by simp)
        · rename_i st hst
          cases h
          simp only
          rw [expandLoop_ignore_blocked embedE queryE role tenant topK ensureMin
            expansionTerms _ _ hst]
          exact hsel
      · cases h
        exact hsel

theorem retrieveFuel_error (embedE : Str → Except Err (List ℚ))
    (queryE : List ℚ → Str → Nat → Except Err (List ScoredDoc))
    (tenant : Str) (role : Role) (q : Str) (topK : Nat) (minSim : ℚ)
    (ensureMin : Nat) (n : Nat) (ig : Bool) (er : Err)
    (hc : retrieveCore embedE queryE tenant role q topK minSim ensureMin ig
      = .error er) :
    retrieveFuel embedE queryE tenant role q topK minSim ensureMin (n + 1) ig
      = ([], .error er) := by
  rw [retrieveFuel, hc]

theorem retrieveFuel_retry (embedE : Str → Except Err (List ℚ))
    (queryE : List ℚ → Str → Nat → Except Err (List ScoredDoc))
    (tenant : Str) (role : Role) (q : Str) (topK : Nat) (minSim : ℚ)
    (ensureMin : Nat) (n : Nat) (ig : Bool) (out : CoreOut)
    (hc : retrieveCore embedE queryE tenant role q topK minSim ensureMin ig = .ok out)
    (hr : out.finalSelected = [] ∧ 0 < out.blockedByRole) :
    retrieveFuel embedE queryE tenant role q topK minSim ensureMin (n + 1) ig
      = (Event.retryDiagnostic tenant role.value q out.resultCount ::
          Event.gateDisabled ::
            (retrieveFuel embedE queryE tenant role q topK minSim ensureMin n true).1,
          (retrieveFuel embedE queryE tenant role q topK minSim ensureMin n true).2) := by
  rw [retrieveFuel, hc]
  exact if_pos hr

theorem retrieveFuel_noretry (embedE : Str → Except Err (List ℚ))
    (queryE : List ℚ → Str → Nat → Except Err (List ScoredDoc))
    (tenant : Str) (role : Role) (q : Str) (topK : Nat) (minSim : ℚ)
    (ensureMin : Nat) (n : Nat) (ig : Bool) (out : CoreOut)
    (hc : retrieveCore embedE queryE tenant role q topK minSim ensureMin ig = .ok out)
    (hr : ¬(out.finalSelected = [] ∧ 0 < out.blockedByRole)) :
    retrieveFuel embedE queryE tenant role q topK minSim ensureMin (n + 1) ig
      = finishRound out := by
  rw [retrieveFuel, hc]
  exact if_neg hr

theorem retrieveFuel_ignore_ok (embedE : Str → Except Err (List ℚ))
    (queryE : List ℚ → Str → Nat → Except Err (List ScoredDoc))
    (tenant : Str) (role : Role) (q : Str) (topK : Nat) (minSim : ℚ)
    (ensureMin : Nat) (n : Nat) (out : CoreOut)
    (hc : retrieveCore embedE queryE tenant role q topK minSim ensureMin true = .ok out) :
    retrieveFuel embedE queryE tenant role q topK minSim ensureMin (n + 1) true
      = finishRound out := by
  have hb := retrieveCore_ignore_blocked embedE queryE tenant role q topK minSim
    ensureMin out hc
  refine retrieveFuel_noretry embedE queryE tenant role q topK minSim ensureMin n
    true out hc ?_
  intro hcon
  rw [hb] at hcon
  exact absurd hcon.2 (lt_irrefl 0)

/-- Claim C3: role filtering is disabled at most once per call; the retry
with the gate off happens exactly when the first pass yields no passages
while the gate blocked at least one candidate; the diagnostic event
precedes the gate-disabling; and the retried pass (role filtering off)
never blocks a candidate, so it can never trigger a second retry — any
recursion budget of at least two computes the same result. -/
theorem degraded_retry_spec (embedE : Str → Except Err (List ℚ))
    (queryE : List ℚ → Str → Nat → Except Err (List ScoredDoc))
    (tenant : Str) (role : Role) (q : Str) (topK : Nat) (minSim : ℚ)
    (ensureMin : Nat) :
    (∀ n, retrieveFuel embedE queryE tenant role q topK minSim ensureMin (n + 2) false
        = retrieve embedE queryE tenant role q topK minSim ensureMin) ∧
      ((Event.gateDisabled ∈
          (retrieve embedE queryE tenant role q topK minSim ensureMin).1) ↔
        ∃ out, retrieveCore embedE queryE tenant role q topK minSim ensureMin false
            = .ok out ∧ out.finalSelected = [] ∧ 0 < out.blockedByRole) ∧
      ((retrieve embedE queryE tenant role q topK minSim ensureMin).1.countP
          (fun ev => decide (ev = Event.gateDisabled)) ≤ 1) ∧
      (Event.gateDisabled ∈
          (retrieve embedE queryE tenant role q topK minSim ensureMin).1 →
        ∃ rc rest, (retrieve embedE queryE tenant role q topK minSim ensureMin).1
          = Event.retryDiagnostic tenant role.value q rc ::
              Event.gateDisabled :: rest) ∧
      (∀ out, retrieveCore embedE queryE tenant role q topK minSim ensureMin true
          = .ok out → out.blockedByRole = 0) := by
  refine ⟨?_, ?_, ?_, ?_,
    fun out h => retrieveCore_ignore_blocked embedE queryE tenant role q topK minSim
      ensureMin out h⟩
  · intro n
    rw [retrieve]
    cases hc : retrieveCore embedE queryE tenant role q topK minSim ensureMin false with
    | error e =>
      rw [retrieveFuel_error embedE queryE tenant role q topK minSim ensureMin (n + 1)
          false e hc,
        retrieveFuel_error embedE queryE tenant role q topK minSim ensureMin 1 false e hc]
    | ok out =>
      by_cases hretry : out.finalSelected = [] ∧ 0 < out.blockedByRole
      · rw [retrieveFuel_retry embedE queryE tenant role q topK minSim ensureMin (n + 1)
            false out hc hretry,
          retrieveFuel_retry embedE queryE tenant role q topK minSim ensureMin 1
            false out hc hretry]
        cases hc2 : retrieveCore embedE queryE tenant role q topK minSim ensureMin true with
        | error er =>
          rw [retrieveFuel_error embedE queryE tenant role q topK minSim ensureMin n
              true er hc2,
            retrieveFuel_error embedE queryE tenant role q topK minSim ensureMin 0
              true er hc2]
        | ok out2 =>
          rw [retrieveFuel_ignore_ok embedE queryE tenant role q topK minSim ensureMin
              n out2 hc2,
            retrieveFuel_ignore_ok embedE queryE tenant role q topK minSim ensureMin
              0 out2 hc2]
      · rw [retrieveFuel_noretry embedE queryE tenant role q topK minSim ensureMin (n + 1)
            false out hc hretry,
          retrieveFuel_noretry embedE queryE tenant role q topK minSim ensureMin 1
            false out hc hretry]
  · rw [retrieve]
    cases hc : retrieveCore embedE queryE tenant role q topK minSim ensureMin false with
    | error e =>
      rw [retrieveFuel_error embedE queryE tenant role q topK minSim ensureMin 1
          false e hc]
      simp only [List.not_mem_nil, false_iff, not_exists]
      intro out hcon
      exact absurd hcon.1 (by simp)
    | ok out =>
      by_cases hretry : out.finalSelected = [] ∧ 0 < out.blockedByRole
      · rw [retrieveFuel_retry embedE queryE tenant role q topK minSim ensureMin 1
            false out hc hretry]
        constructor
        · intro _
          exact ⟨out, rfl, hretry⟩
        · intro _
          simp
      · rw [retrieveFuel_noretry embedE queryE tenant role q topK minSim ensureMin 1
            false out hc hretry]
        simp only [finishRound]
        constructor
        · intro hmem
          rcases List.mem_singleton.mp hmem with h
          exact absurd h (by simp)
        · rintro ⟨out2, hc2, hr2⟩
          injection hc2 with heq
          subst heq
          exact absurd hr2 hretry
  · rw [retrieve]
    cases hc : retrieveCore embedE queryE tenant role q topK minSim ensureMin false with
    | error e =>
      rw [retrieveFuel_error embedE queryE tenant role q topK minSim ensureMin 1
          false e hc]
      simp
    | ok out =>
      by_cases hretry : out.finalSelected = [] ∧ 0 < out.blockedByRole
      · rw [retrieveFuel_retry embedE queryE tenant role q topK minSim ensureMin 1
            false out hc hretry]
        cases hc2 : retrieveCore embedE queryE tenant role q topK minSim ensureMin true with
        | error er =>
          rw [retrieveFuel_error embedE queryE tenant role q topK minSim ensureMin 0
              true er hc2]
          simp
        | ok out2 =>
          rw [retrieveFuel_ignore_ok embedE queryE tenant role q topK minSim ensureMin
              0 out2 hc2]
          simp [finishRound]
      · rw [retrieveFuel_noretry embedE queryE tenant role q topK minSim ensureMin 1
            false out hc hretry]
        simp [finishRound]
  · rw [retrieve]
    cases hc : retrieveCore embedE queryE tenant role q topK minSim ensureMin false with
    | error e =>
      rw [retrieveFuel_error embedE queryE tenant role q topK minSim ensureMin 1
          false e hc]
      simp
    | ok out =>
      by_cases hretry : out.finalSelected = [] ∧ 0 < out.blockedByRole
      · rw [retrieveFuel_retry embedE queryE tenant role q topK minSim ensureMin 1
            false out hc hretry]
        intro _
        exact ⟨out.resultCount,
          (retrieveFuel embedE queryE tenant role q topK minSim ensureMin 1 true).1, rfl⟩
      · rw [retrieveFuel_noretry embedE queryE tenant role q topK minSim ensureMin 1
            false out hc hretry]
        simp [finishRound]

/-- Claim C3 (witness): with collaborators over an empty store the first
pass blocks nothing, so the gate is never disabled and no retry happens. -/
theorem degraded_retry_spec_witness :
    (retrieveFuel (fun _ => .ok []) (fun _ _ _ => .ok []) (strOf "t") Role.employee
        (strOf "q") 5 (1/2) 5 3 false
      = retrieve (fun _ => .ok []) (fun _ _ _ => .ok []) (strOf "t") Role.employee
        (strOf "q") 5 (1/2) 5) ∧
      ((retrieve (fun _ => .ok []) (fun _ _ _ => .ok []) (strOf "t") Role.employee
          (strOf "q") 5 (1/2) 5).1.countP
        (fun ev => decide (ev = Event.gateDisabled)) ≤ 1) :=
  ⟨(degraded_retry_spec (fun _ => .ok []) (fun _ _ _ => .ok []) (strOf "t")
      Role.employee (strOf "q") 5 (1/2) 5).1 1,
    (degraded_retry_spec (fun _ => .ok []) (fun _ _ _ => .ok []) (strOf "t")
      Role.employee (strOf "q") 5 (1/2) 5).2.2.1⟩

/-- The hit list and dominant choice used to witness claim C5. -/
def c5hits : List Hit :=
  [ ⟨strOf "x1", strOf "da", strOf "t1", 1/2, strOf "internal", []⟩,
    ⟨strOf "x2", strOf "db", strOf "t2", 2/5, strOf "internal", []⟩ ]

/-- Claim C5 (witness): the ranking decomposition at a concrete hit list
with dominant document `da`. -/
theorem ranking_threshold_spec_witness :
    ∃ A B, rankSelect c5hits (some (strOf "da")) = A ++ B ∧
      A.Perm (c5hits.filter (fun h => decide ((3/10 : ℚ) ≤ h.similarity) &&
        decide (some (strOf "da") = some h.doc_id))) ∧
      simSortedDesc A ∧ simSortedDesc B ∧
      (c5hits.filter (fun h => decide (some (strOf "da") = some h.doc_id)) = [] →
        B.Perm (c5hits.filter (fun h => decide ((3/10 : ℚ) ≤ h.similarity) &&
          !(decide (some (strOf "da") = some h.doc_id))))) ∧
      (c5hits.filter (fun h => decide (some (strOf "da") = some h.doc_id)) ≠ [] →
        (∀ h ∈ c5hits, some (strOf "da") = some h.doc_id →
          h.similarity ≤ domTop c5hits (some (strOf "da"))) ∧
        (∃ h ∈ c5hits, some (strOf "da") = some h.doc_id ∧
          h.similarity = domTop c5hits (some (strOf "da"))) ∧
        B.Perm (c5hits.filter (fun h =>
          (decide ((3/10 : ℚ) ≤ h.similarity) &&
            decide (domTop c5hits (some (strOf "da")) - 3/20 ≤ h.similarity)) &&
          !(decide (some (strOf "da") = some h.doc_id))))) :=
  ranking_threshold_spec c5hits (some (strOf "da"))

/-! ## Claim C1: tenant isolation -/

theorem snd_mem_of_mem_enumFrom {α : Type} (l : List α) (i : Nat) (p : Nat × α)
    (h : p ∈ List.enumFrom i l) : p.2 ∈ l := by
  induction l generalizing i with
  | nil => cases h
  | cons a t ih =>
    rcases List.mem_cons.mp h with rfl | h2
    · exact List.mem_cons_self _ _
    · exact List.mem_cons_of_mem _ (ih (i + 1) h2)

theorem vsQuery_mem (rawSim : List ℚ → List ℚ → ℚ) (docs : List StoredDoc)
    (v : List ℚ) (tenant : Str) (k : Nat) (r : ScoredDoc)
    (h : r ∈ vsQuery rawSim docs v tenant k) :
    ∃ d ∈ docs, d.meta.tenant_id = tenant ∧ r.meta = d.meta ∧ r.doc = d.doc := by
  simp only [vsQuery] at h
  have h1 := List.take_subset _ _ h
  rw [pySort_mem] at h1
  rcases List.mem_map.mp h1 with ⟨d, hd, rfl⟩
  rcases List.mem_filter.mp hd with ⟨hdocs, ht⟩
  exact ⟨d, hdocs, by simpa using ht, rfl, rfl⟩

theorem buildPrimary_mem (role : Role) (ignoreRole : Bool) (minSim : ℚ)
    (detected : List Str) (rows : List ScoredDoc) (i : Nat) (x : Hit)
    (h : x ∈ buildPrimary role ignoreRole minSim detected rows i) :
    ∃ r ∈ rows, x.chunk = r.doc ∧ x.doc_id = r.meta.doc_id := by
  rw [buildPrimary_eq_filter] at h
  rcases List.mem_map.mp h with ⟨p, hp, rfl⟩
  have hrow : p ∈ List.enumFrom i rows :=
    (List.filter_sublist _).subset ((List.filter_sublist _).subset hp)
  exact ⟨p.2, snd_mem_of_mem_enumFrom rows i p hrow, rfl, rfl⟩

theorem rankSelect_subset (hits : List Hit) (dom : Option Str) (x : Hit)
    (h : x ∈ rankSelect hits dom) : x ∈ hits := by
  simp only [rankSelect] at h
  rcases List.mem_append.mp h with h1 | h1
  · exact (sortHits_perm dom hits).subset
      ((List.filter_sublist _).subset ((List.filter_sublist _).subset h1))
  · cases hdc : (sortHits dom hits).filter (fun h => decide (dom = some h.doc_id)) with
    | nil =>
      rw [hdc] at h1
      exact (sortHits_perm dom hits).subset
        ((List.filter_sublist _).subset ((List.filter_sublist _).subset h1))
    | cons top rest =>
      rw [hdc] at h1
      exact (sortHits_perm dom hits).subset
        ((List.filter_sublist _).subset ((List.filter_sublist _).subset h1))

theorem dedupTake_subset (lim : Nat) (l acc : List Hit) (x : Hit)
    (h : x ∈ dedupTake lim l acc) : x ∈ acc ∨ x ∈ l := by
  induction l generalizing acc with
  | nil => exact Or.inl h
  | cons a t ih =>
    rw [dedupTake] at h
    by_cases hseen : a.id ∈ acc.map (fun x => x.id)
    · rw [if_pos hseen] at h
      rcases ih acc h with h2 | h2
      · exact Or.inl h2
      · exact Or.inr (List.mem_cons_of_mem _ h2)
    · rw [if_neg hseen] at h
      by_cases hfull : lim ≤ (acc ++ [a]).length
      · rw [if_pos hfull] at h
        rcases List.mem_append.mp h with h2 | h2
        · exact Or.inl h2
        · exact Or.inr (List.mem_cons.mpr (Or.inl (List.mem_singleton.mp h2)))
      · rw [if_neg hfull] at h
        rcases ih (acc ++ [a]) h with h2 | h2
        · rcases List.mem_append.mp h2 with h3 | h3
          · exact Or.inl h3
          · exact Or.inr (List.mem_cons.mpr (Or.inl (List.mem_singleton.mp h3)))
        · exact Or.inr (List.mem_cons_of_mem _ h2)

theorem coreSelect_mem (role : Role) (ignoreRole : Bool) (minSim : ℚ)
    (detected : List Str) (topK ensureMin : Nat) (res : List ScoredDoc) (x : Hit)
    (h : x ∈ (coreSelect role ignoreRole minSim detected topK ensureMin res).1) :
    ∃ r ∈ res, x.chunk = r.doc ∧ x.doc_id = r.meta.doc_id := by
  simp only [coreSelect] at h
  rcases dedupTake_subset _ _ _ _ h with h1 | h1
  · cases h1
  · have h2 := rankSelect_subset _ _ _ h1
    rw [primaryLoop_eq] at h2
    simp only [List.nil_append] at h2
    exact buildPrimary_mem role ignoreRole minSim detected res 0 x h2

theorem expandRows_mem (ignoreRole : Bool) (role : Role) (ensureMin : Nat)
    (rows : List ScoredDoc) (j : Nat) (st : ExpState) (x : Hit)
    (h : x ∈ (expandRows ignoreRole role ensureMin rows j st).acc) :
    x ∈ st.acc ∨ ∃ r ∈ rows, x.chunk = r.doc ∧ x.doc_id = r.meta.doc_id := by
  induction rows generalizing j st with
  | nil => exact Or.inl h
  | cons r rest ih =>
    rw [expandRows] at h
    by_cases hb : expRoleBlocks ignoreRole role r.meta.allowed_roles
    · rw [if_pos hb] at h
      rcases ih (j + 1) _ h with h2 | ⟨r2, hr2, hx⟩
      · exact Or.inl h2
      · exact Or.inr ⟨r2, List.mem_cons_of_mem _ hr2, hx⟩
    · rw [if_neg hb] at h
      by_cases hseen : (mkExpHit r j).id ∈ st.acc.map (fun x => x.id)
      · rw [if_pos hseen] at h
        rcases ih (j + 1) _ h with h2 | ⟨r2, hr2, hx⟩
        · exact Or.inl h2
        · exact Or.inr ⟨r2, List.mem_cons_of_mem _ hr2, hx⟩
      · rw [if_neg hseen] at h
        by_cases hfull : ensureMin ≤ (st.acc ++ [mkExpHit r j]).length
        · rw [if_pos hfull] at h
          rcases List.mem_append.mp h with h2 | h2
          · exact Or.inl h2
          · rcases List.mem_singleton.mp h2 with rfl
            exact Or.inr ⟨r, List.mem_cons_self _ _, rfl, rfl⟩
        · rw [if_neg hfull] at h
          rcases ih (j + 1) _ h with h2 | ⟨r2, hr2, hx⟩
          · rcases List.mem_append.mp h2 with h3 | h3
            · exact Or.inl h3
            · rcases List.mem_singleton.mp h3 with rfl
              exact Or.inr ⟨r, List.mem_cons_self _ _, rfl, rfl⟩
          · exact Or.inr ⟨r2, List.mem_cons_of_mem _ hr2, hx⟩

theorem expandLoop_mem_vs (rawSim : List ℚ → List ℚ → ℚ) (docs : List StoredDoc)
    (embedE : Str → Except Err (List ℚ)) (ignoreRole : Bool) (role : Role)
    (tenant : Str) (topK ensureMin : Nat) (terms : List Str) (st st' : ExpState)
    (h : expandLoop embedE (fun v t k => .ok (vsQuery rawSim docs v t k)) ignoreRole
      role tenant topK ensureMin terms st = .ok st') :
    ∀ x ∈ st'.acc, x ∈ st.acc ∨
      ∃ d ∈ docs, d.meta.tenant_id = tenant ∧ x.chunk = d.doc ∧ x.doc_id = d.meta.doc_id := by
  induction terms generalizing st with
  | nil =>
    rw [expandLoop] at h
    cases h
    exact fun x hx => Or.inl hx
  | cons term rest ih =>
    intro x hx
    simp only [expandLoop] at h
    split at h
    · exact absurd h (by simp)
    · rename_i v hv
      by_cases hfull : ensureMin ≤ (expandRows ignoreRole role ensureMin
          (vsQuery rawSim docs v tenant (topK * 3)) 0 st).acc.length
      · rw [if_pos hfull] at h
        cases h
        rcases expandRows_mem ignoreRole role ensureMin _ 0 st x hx with h2 | ⟨r, hr, hx2⟩
        · exact Or.inl h2
        · rcases vsQuery_mem rawSim docs v tenant (topK * 3) r hr with ⟨d, hd, ht, hm, hdoc⟩
          exact Or.inr ⟨d, hd, ht, by rw [hx2.1, hdoc], by rw [hx2.2, hm]⟩
      · rw [if_neg hfull] at h
        rcases ih _ h x hx with h2 | h2
        · rcases expandRows_mem ignoreRole role ensureMin _ 0 st x h2 with h3 | ⟨r, hr, hx2⟩
          · exact Or.inl h3
          · rcases vsQuery_mem rawSim docs v tenant (topK * 3) r hr with ⟨d, hd, ht, hm, hdoc⟩
            exact Or.inr ⟨d, hd, ht, by rw [hx2.1, hdoc], by rw [hx2.2, hm]⟩
        · exact Or.inr h2

theorem retrieveCore_tenant (rawSim : List ℚ → List ℚ → ℚ) (docs : List StoredDoc)
    (embedE : Str → Except Err (List ℚ)) (tenant : Str) (role : Role) (q : Str)
    (topK : Nat) (minSim : ℚ) (ensureMin : Nat) (ig : Bool) (out : CoreOut)
    (h : retrieveCore embedE (fun v t k => .ok (vsQuery rawSim docs v t k)) tenant
      role q topK minSim ensureMin ig = .ok out) :
    ∀ x ∈ out.finalSelected, ∃ d ∈ docs,
      d.meta.tenant_id = tenant ∧ x.chunk = d.doc ∧ x.doc_id = d.meta.doc_id := by
  intro x hx
  simp only [retrieveCore] at h
  split at h
  · exact absurd h (by simp)
  · rename_i qvec hqvec
    rw [coreFinish] at h
    split at h
    · split at h
      · exact absurd h (by simp)
      · rename_i st hst
        cases h
        simp only at hx
        rcases expandLoop_mem_vs rawSim docs embedE ig role tenant topK ensureMin
            expansionTerms _ st hst x hx with h2 | h2
        · simp only at h2
          rcases coreSelect_mem role ig minSim (detectTypes (lowerChars q)) topK
              ensureMin _ x h2 with ⟨r, hr, hchunk, hdoc⟩
          rcases vsQuery_mem rawSim docs qvec tenant (topK * 5) r hr with
            ⟨d, hd, ht, hm, hdocd⟩
          exact ⟨d, hd, ht, by rw [hchunk, hdocd], by rw [hdoc, hm]⟩
        · exact h2
    · cases h
      simp only at hx
      rcases coreSelect_mem role ig minSim (detectTypes (lowerChars q)) topK
          ensureMin _ x hx with ⟨r, hr, hchunk, hdoc⟩
      rcases vsQuery_mem rawSim docs qvec tenant (topK * 5) r hr with
        ⟨d, hd, ht, hm, hdocd⟩
      exact ⟨d, hd, ht, by rw [hchunk, hdocd], by rw [hdoc, hm]⟩

/-- Claim C1: every passage returned by `retrieve` backed by the in-memory
vector store (on the primary round, the expansion rounds, and the
role-ignoring retry round alike) originates from an item stored with the
queried tenant tag — regardless of the similarity function. -/
theorem tenant_isolation (rawSim : List ℚ → List ℚ → ℚ) (docs : List StoredDoc)
    (embedE : Str → Except Err (List ℚ)) (tenant : Str) (role : Role) (q : Str)
    (topK : Nat) (minSim : ℚ) (ensureMin : Nat) (evs : List Event)
    (hits : List Hit) (conf : ℚ)
    (h : retrieve embedE (fun v t k => .ok (vsQuery rawSim docs v t k)) tenant role
      q topK minSim ensureMin = (evs, .ok (hits, conf))) :
    ∀ p ∈ hits, ∃ d ∈ docs,
      d.meta.tenant_id = tenant ∧ p.chunk = d.doc ∧ p.doc_id = d.meta.doc_id := by
  rcases (retrieve_ok_conf embedE _ tenant role q topK minSim ensureMin evs hits
      conf h).2 with hnil | ⟨ig, out, hcore, hhits⟩
  · rw [hnil]
    simp
  · rw [hhits]
    exact retrieveCore_tenant rawSim docs embedE tenant role q topK minSim ensureMin
      ig out hcore

/-- A store holding only another tenant's document, used to witness claim C1. -/
def docsW : List StoredDoc :=
  [⟨strOf "i1", [1], ⟨strOf "other", strOf "d1", strOf "", strOf "public",
    strOf "policy_manual"⟩, strOf "c1"⟩]

/-- Claim C1 (witness): querying tenant `t` against a store holding only
tenant `other`'s document returns nothing of it, and every returned
passage (vacuously) originates from a tenant-`t` item. -/
theorem tenant_isolation_witness :
    (retrieve (fun _ => .ok []) (fun v t k => .ok (vsQuery (fun _ _ => 0) docsW v t k))
        (strOf "t") Role.employee (strOf "q") 5 (1/2) 5
      = ([Event.finalDiagnostic 0 0], .ok ([], 0))) ∧
      ∀ p ∈ ([] : List Hit), ∃ d ∈ docsW,
        d.meta.tenant_id = strOf "t" ∧ p.chunk = d.doc ∧ p.doc_id = d.meta.doc_id :=
  ⟨by decide,
    tenant_isolation (fun _ _ => 0) docsW (fun _ => .ok []) (strOf "t") Role.employee
      (strOf "q") 5 (1/2) 5 [Event.finalDiagnostic 0 0] [] 0 (by decide)⟩

/-! ## Claim C6: expansion-round error containment -/

/-- An embedding provider that succeeds on the query `q` but fails on every
other text — in particular on the first expansion term. -/
def e6embed : Str → Except Err (List ℚ) :=
  fun s => if s = strOf "q" then .ok [0] else .error .embeddingFailure

/-- A vector index that always answers (with no candidates). -/
def e6query : List ℚ → Str → Nat → Except Err (List ScoredDoc) :=
  fun _ _ _ => .ok []

/-- Claim C6 (counterexample): the primary round succeeds (query embedding
and index call both return), but when the embedding provider fails on the
first expansion term the whole `retrieve` call fails — the expansion-round
error is not caught, the term is not skipped, and no primary result is
returned. -/
theorem expansion_error_containment_cex :
    e6embed (strOf "q") = .ok [0] ∧
      e6query [0] (strOf "t") 25 = .ok [] ∧
      e6embed (strOf "work schedule") = .error .embeddingFailure ∧
      retrieve e6embed e6query (strOf "t") Role.employee (strOf "q") 5 (1/2) 5
        = ([], .error .embeddingFailure) := by
  refine ⟨by decide, by decide, by decide, by decide⟩

theorem retrieveCore_embed_error (embedE : Str → Except Err (List ℚ))
    (queryE : List ℚ → Str → Nat → Except Err (List ScoredDoc))
    (tenant : Str) (role : Role) (q : Str) (topK : Nat) (minSim : ℚ)
    (ensureMin : Nat) (ig : Bool) (er : Err) (hE : embedE q = .error er) :
    retrieveCore embedE queryE tenant role q topK minSim ensureMin ig = .error er := by
  rw [retrieveCore, hE]

theorem retrieveCore_query_error (embedE : Str → Except Err (List ℚ))
    (queryE : List ℚ → Str → Nat → Except Err (List ScoredDoc))
    (tenant : Str) (role : Role) (q : Str) (topK : Nat) (minSim : ℚ)
    (ensureMin : Nat) (ig : Bool) (v : List ℚ) (er : Err)
    (hE : embedE q = .ok v) (hQ : queryE v tenant (topK * 5) = .error er) :
    retrieveCore embedE queryE tenant role q topK minSim ensureMin ig = .error er := by
  rw [retrieveCore, hE]
  change (match queryE v tenant (topK * 5) with
    | Except.error e => (Except.error e : Except Err CoreOut)
    | Except.ok res =>
      coreFinish embedE queryE tenant role topK ensureMin ig res
        (coreSelect role ig minSim (detectTypes (lowerChars q)) topK ensureMin res))
    = Except.error er
  rw [hQ]

theorem retrieveCore_expansion_error (embedE : Str → Except Err (List ℚ))
    (queryE : List ℚ → Str → Nat → Except Err (List ScoredDoc))
    (tenant : Str) (role : Role) (q : Str) (topK : Nat) (minSim : ℚ)
    (ensureMin : Nat) (ig : Bool) (v : List ℚ) (res : List ScoredDoc) (er : Err)
    (hE : embedE q = .ok v) (hQ : queryE v tenant (topK * 5) = .ok res)
    (hlen : (coreSelect role ig minSim (detectTypes (lowerChars q)) topK ensureMin
      res).1.length < ensureMin)
    (hexp : expandLoop embedE queryE ig role tenant topK ensureMin expansionTerms
      ⟨(coreSelect role ig minSim (detectTypes (lowerChars q)) topK ensureMin res).1,
        (coreSelect role ig minSim (detectTypes (lowerChars q)) topK ensureMin res).2,
        []⟩ = .error er) :
    retrieveCore embedE queryE tenant role q topK minSim ensureMin ig = .error er := by
  rw [retrieveCore, hE]
  change (match queryE v tenant (topK * 5) with
    | Except.error e => (Except.error e : Except Err CoreOut)
    | Except.ok res =>
      coreFinish embedE queryE tenant role topK ensureMin ig res
        (coreSelect role ig minSim (detectTypes (lowerChars q)) topK ensureMin res))
    = Except.error er
  rw [hQ]
  change coreFinish embedE queryE tenant role topK ensureMin ig res
    (coreSelect role ig minSim (detectTypes (lowerChars q)) topK ensureMin res)
    = Except.error er
  rw [coreFinish, if_pos hlen, hexp]

/-- Claim C6 (amended): a failure of the embedding provider or the vector
index aborts the call and propagates to the caller in every round — on the
primary round as claimed, but also during the expansion rounds, whose
errors are not contained. -/
theorem error_propagation_amended (embedE : Str → Except Err (List ℚ))
    (queryE : List ℚ → Str → Nat → Except Err (List ScoredDoc))
    (tenant : Str) (role : Role) (q : Str) (topK : Nat) (minSim : ℚ)
    (ensureMin : Nat) :
    (∀ er, embedE q = .error er →
      retrieve embedE queryE tenant role q topK minSim ensureMin = ([], .error er)) ∧
      (∀ v er, embedE q = .ok v → queryE v tenant (topK * 5) = .error er →
        retrieve embedE queryE tenant role q topK minSim ensureMin
          = ([], .error er)) ∧
      ∀ v res er, embedE q = .ok v → queryE v tenant (topK * 5) = .ok res →
        (coreSelect role false minSim (detectTypes (lowerChars q)) topK ensureMin
          res).1.length < ensureMin →
        expandLoop embedE queryE false role tenant topK ensureMin expansionTerms
          ⟨(coreSelect role false minSim (detectTypes (lowerChars q)) topK ensureMin
              res).1,
            (coreSelect role false minSim (detectTypes (lowerChars q)) topK ensureMin
              res).2, []⟩ = .error er →
        retrieve embedE queryE tenant role q topK minSim ensureMin
          = ([], .error er) := by
  refine ⟨?_, ?_, ?_⟩
  · intro er hE
    rw [retrieve]
    exact retrieveFuel_error embedE queryE tenant role q topK minSim ensureMin 1
      false er (retrieveCore_embed_error embedE queryE tenant role q topK minSim
        ensureMin false er hE)
  · intro v er hE hQ
    rw [retrieve]
    exact retrieveFuel_error embedE queryE tenant role q topK minSim ensureMin 1
      false er (retrieveCore_query_error embedE queryE tenant role q topK minSim
        ensureMin false v er hE hQ)
  · intro v res er hE hQ hlen hexp
    rw [retrieve]
    exact retrieveFuel_error embedE queryE tenant role q topK minSim ensureMin 1
      false er (retrieveCore_expansion_error embedE queryE tenant role q topK minSim
        ensureMin false v res er hE hQ hlen hexp)

/-- Claim C6 (amended, witness): a primary-round embedding failure is
propagated verbatim at a concrete input. -/
theorem error_propagation_amended_witness :
    ((fun _ : Str => (.error .embeddingFailure : Except Err (List ℚ))) (strOf "q")
        = .error .embeddingFailure) ∧
      retrieve (fun _ => .error .embeddingFailure) (fun _ _ _ => .ok []) (strOf "t")
        Role.employee (strOf "q") 5 (1/2) 5 = ([], .error .embeddingFailure) :=
  ⟨rfl, (error_propagation_amended (fun _ => .error .embeddingFailure)
    (fun _ _ _ => .ok []) (strOf "t") Role.employee (strOf "q") 5 (1/2) 5).1
      .embeddingFailure rfl⟩

/-! ## Claim C8: InvalidRole fail-fast -/

/-- Claim C8 (counterexample): the supplied role string `"HR"` is not a
member of the closed enumeration, yet the endpoint does not fail with an
InvalidRole error — it lowercases the value, resolves it to `hr`, and
proceeds to the retrieval (and hence the vector index). -/
theorem invalid_role_failfast_cex :
    strOf "HR" ∉ roleEnumStrings ∧
      queryEndpoint (fun _ => .ok []) (fun _ _ _ => .ok []) (some (strOf "HR"))
        (strOf "t") (strOf "q") 5 = .success [] 0 := by
  refine ⟨by decide, by decide⟩

/-- Claim C8 (amended): membership in the enumeration is checked on the
lowercased supplied role (with the missing-role default `employee`); for
every supplied role whose lowercase form is not in the enumeration the
endpoint fails with an InvalidRole error whose behaviour is independent of
the collaborators — so the vector index is never consulted — and no
substitute role is used. -/
theorem invalid_role_failfast_amended :
    (∀ (s : Str) (embedE : Str → Except Err (List ℚ))
      (queryE : List ℚ → Str → Nat → Except Err (List ScoredDoc))
      (tenant q : Str) (topK : Nat),
      parseRoleStr (lowerChars s) = none →
      queryEndpoint embedE queryE (some s) tenant q topK
        = .invalidRole (strOf "Invalid role: " ++ lowerChars s)) ∧
      ∀ (embedE : Str → Except Err (List ℚ))
        (queryE : List ℚ → Str → Nat → Except Err (List ScoredDoc))
        (tenant q : Str) (topK : Nat),
        queryEndpoint embedE queryE none tenant q topK
          = queryEndpoint embedE queryE (some (strOf "employee")) tenant q topK := by
  constructor
  · intro s embedE queryE tenant q topK hp
    simp only [queryEndpoint, resolveRoleStr, Option.getD]
    rw [hp]
  · intro embedE queryE tenant q topK
    rfl

/-- Claim C8 (amended, witness): the supplied role `"manager"` fails with
InvalidRole at concrete collaborators. -/
theorem invalid_role_failfast_amended_witness :
    parseRoleStr (lowerChars (strOf "manager")) = none ∧
      queryEndpoint (fun _ => .ok []) (fun _ _ _ => .ok []) (some (strOf "manager"))
        (strOf "t") (strOf "q") 5
        = .invalidRole (strOf "Invalid role: " ++ lowerChars (strOf "manager")) :=
  ⟨by decide, invalid_role_failfast_amended.1 (strOf "manager") (fun _ => .ok [])
    (fun _ _ _ => .ok []) (strOf "t") (strOf "q") 5 (by decide)⟩

/-! ## Claim C9: passage-identifier uniqueness -/

/-- Shared metadata of the claim-C9 counterexample store: same tenant and
document, unrestricted roles. -/
def m9 : Meta := ⟨strOf "t", strOf "d", strOf "", strOf "internal", strOf "pm"⟩

/-- The chunk returned for the first expansion term. -/
def row9x : ScoredDoc := ⟨0, m9, strOf "x", strOf "r1"⟩

/-- A different chunk of the same document returned for the second
expansion term, again at within-round index 0. -/
def row9y : ScoredDoc := ⟨0, m9, strOf "y", strOf "r2"⟩

/-- Embedding provider distinguishing the query and the first two
expansion terms. -/
def e9embed : Str → Except Err (List ℚ) := fun s =>
  if s = strOf "work schedule" then .ok [1]
  else if s = strOf "shift hours" then .ok [2]
  else .ok [0]

/-- Vector index returning one chunk for each of the two distinguished
vectors and nothing otherwise. -/
def e9query : List ℚ → Str → Nat → Except Err (List ScoredDoc) := fun v _ _ =>
  if v = [1] then .ok [row9x]
  else if v = [2] then .ok [row9y]
  else .ok []

/-- Claim C9 (counterexample): two distinct chunks gathered in different
expansion rounds (same document, same within-round position) receive the
same constructed identifier, so deduplication discards the second one: the
constructed-candidate trace contains both, but the returned list has only
the first chunk and the second chunk's text is lost. -/
theorem passage_id_uniqueness_cex :
    (mkExpHit row9x 0).id = (mkExpHit row9y 0).id ∧
      (mkExpHit row9x 0).chunk ≠ (mkExpHit row9y 0).chunk ∧
      retrieveCore e9embed e9query (strOf "t") Role.employee (strOf "q") 1 (1/2) 2
        false = .ok ⟨[mkExpHit row9x 0], 0, 0, [mkExpHit row9x 0, mkExpHit row9y 0]⟩ ∧
      (retrieve e9embed e9query (strOf "t") Role.employee (strOf "q") 1 (1/2) 2).2
        = .ok ([mkExpHit row9x 0], cosine_to_similarity 0) ∧
      ∀ h ∈ [mkExpHit row9x 0], h.chunk ≠ row9y.doc := by
  have hcore : retrieveCore e9embed e9query (strOf "t") Role.employee (strOf "q") 1
      (1/2) 2 false
      = .ok ⟨[mkExpHit row9x 0], 0, 0, [mkExpHit row9x 0, mkExpHit row9y 0]⟩ := by
    simp [retrieveCore, coreSelect, coreFinish, expandLoop, expandRows, primaryLoop,
      rankSelect, sortHits, pySort, dominantDoc, pickDominant, firstKeys, firstKeysAux,
      dedupTake, detectTypes, docTypeKeywords, containsSub, lowerChars, e9embed,
      e9query, row9x, row9y, m9, mkExpHit, expRoleBlocks, strOf, expansionTerms,
      natStr]
  refine ⟨rfl, by decide, hcore, ?_, by decide⟩
  rw [retrieve,
    retrieveFuel_noretry e9embed e9query (strOf "t") Role.employee (strOf "q") 1
      (1/2) 2 1 false _ hcore (by simp)]
  simp [finishRound, confidenceOf, mkExpHit, row9x]

theorem dedupTake_nodup (lim : Nat) (l acc : List Hit)
    (hacc : (acc.map (fun x => x.id)).Nodup) :
    ((dedupTake lim l acc).map (fun x => x.id)).Nodup := by
  induction l generalizing acc with
  | nil => simpa [dedupTake] using hacc
  | cons a t ih =>
    rw [dedupTake]
    by_cases hseen : a.id ∈ acc.map (fun x => x.id)
    · rw [if_pos hseen]
      exact ih acc hacc
    · rw [if_neg hseen]
      have hacc2 : ((acc ++ [a]).map (fun x => x.id)).Nodup := by
        rw [List.map_append, List.nodup_append]
        refine ⟨hacc, List.nodup_singleton _, ?_⟩
        intro b hb hbmem
        rcases List.mem_singleton.mp hbmem with rfl
        exact hseen hb
      by_cases hfull : lim ≤ (acc ++ [a]).length
      · rw [if_pos hfull]
        exact hacc2
      · rw [if_neg hfull]
        exact ih _ hacc2

theorem expandRows_nodup (ignoreRole : Bool) (role : Role) (ensureMin : Nat)
    (rows : List ScoredDoc) (j : Nat) (st : ExpState)
    (hacc : (st.acc.map (fun x => x.id)).Nodup) :
    ((expandRows ignoreRole role ensureMin rows j st).acc.map (fun x => x.id)).Nodup := by
  induction rows generalizing j st with
  | nil => exact hacc
  | cons r rest ih =>
    rw [expandRows]
    by_cases hb : expRoleBlocks ignoreRole role r.meta.allowed_roles
    · rw [if_pos hb]
      exact ih (j + 1) _ hacc
    · rw [if_neg hb]
      by_cases hseen : (mkExpHit r j).id ∈ st.acc.map (fun x => x.id)
      · rw [if_pos hseen]
        exact ih (j + 1) _ hacc
      · rw [if_neg hseen]
        have hacc2 : ((st.acc ++ [mkExpHit r j]).map (fun x => x.id)).Nodup := by
          rw [List.map_append, List.nodup_append]
          refine ⟨hacc, List.nodup_singleton _, ?_⟩
          intro b hb2 hbmem
          rcases List.mem_singleton.mp hbmem with rfl
          exact hseen hb2
        by_cases hfull : ensureMin ≤ (st.acc ++ [mkExpHit r j]).length
        · rw [if_pos hfull]
          exact hacc2
        · rw [if_neg hfull]
          exact ih (j + 1) _ hacc2

theorem expandLoop_nodup (embedE : Str → Except Err (List ℚ))
    (queryE : List ℚ → Str → Nat → Except Err (List ScoredDoc))
    (ignoreRole : Bool) (role : Role) (tenant : Str) (topK ensureMin : Nat)
    (terms : List Str) (st st' : ExpState)
    (h : expandLoop embedE queryE ignoreRole role tenant topK ensureMin terms st
      = .ok st')
    (hacc : (st.acc.map (fun x => x.id)).Nodup) :
    (st'.acc.map (fun x => x.id)).Nodup := by
  induction terms generalizing st with
  | nil =>
    rw [expandLoop] at h
    cases h
    exact hacc
  | cons term rest ih =>
    rw [expandLoop] at h
    split at h
    · exact absurd h (by simp)
    · split at h
      · exact absurd h (by simp)
      · split at h
        · cases h
          exact expandRows_nodup ignoreRole role ensureMin _ 0 st hacc
        · exact ih _ h (expandRows_nodup ignoreRole role ensureMin _ 0 st hacc)

theorem retrieveCore_nodup (embedE : Str → Except Err (List ℚ))
    (queryE : List ℚ → Str → Nat → Except Err (List ScoredDoc))
    (tenant : Str) (role : Role) (q : Str) (topK : Nat) (minSim : ℚ)
    (ensureMin : Nat) (ig : Bool) (out : CoreOut)
    (h : retrieveCore embedE queryE tenant role q topK minSim ensureMin ig = .ok out) :
    (out.finalSelected.map (fun x => x.id)).Nodup := by
  rw [retrieveCore] at h
  split at h
  · exact absurd h (by simp)
  · split at h
    · exact absurd h (by simp)
    · rename_i qvec hqvec res hres
      have hsel : (((coreSelect role ig minSim (detectTypes (lowerChars q)) topK
          ensureMin res).1).map (fun x => x.id)).Nodup := by
        rw [coreSelect]
        exact dedupTake_nodup _ _ [] (by simp)
      rw [coreFinish] at h
      split at h
      · split at h
        · exact absurd h (by simp)
        · rename_i st hst
          cases h
          exact expandLoop_nodup embedE queryE ig role tenant topK ensureMin
            expansionTerms _ st hst hsel
      · cases h
        exact hsel

/-- Claim C9 (amended): the list returned by `retrieve` never repeats a
passage identifier (every addition is guarded by the `seen_ids` check);
identifiers are not, however, distinct for distinct chunks across
expansion rounds, so the deduplication can discard a different passage. -/
theorem passage_ids_nodup (embedE : Str → Except Err (List ℚ))
    (queryE : List ℚ → Str → Nat → Except Err (List ScoredDoc))
    (tenant : Str) (role : Role) (q : Str) (topK : Nat) (minSim : ℚ)
    (ensureMin : Nat) (evs : List Event) (hits : List Hit) (conf : ℚ)
    (h : retrieve embedE queryE tenant role q topK minSim ensureMin
      = (evs, .ok (hits, conf))) :
    (hits.map (fun x => x.id)).Nodup := by
  rcases (retrieve_ok_conf embedE queryE tenant role q topK minSim ensureMin evs hits
      conf h).2 with hnil | ⟨ig, out, hcore, hhits⟩
  · rw [hnil]
    exact List.nodup_nil
  · rw [hhits]
    exact retrieveCore_nodup embedE queryE tenant role q topK minSim ensureMin ig
      out hcore

/-- Claim C9 (amended, witness): at a concrete call the returned identifier
list is duplicate-free. -/
theorem passage_ids_nodup_witness :
    (retrieve (fun _ => .ok []) (fun _ _ _ => .ok []) (strOf "t") Role.employee
        (strOf "q") 5 (1/2) 5 = ([Event.finalDiagnostic 0 0], .ok ([], 0))) ∧
      (([] : List Hit).map (fun x => x.id)).Nodup :=
  ⟨by decide, passage_ids_nodup (fun _ => .ok []) (fun _ _ _ => .ok []) (strOf "t")
    Role.employee (strOf "q") 5 (1/2) 5 [Event.finalDiagnostic 0 0] [] 0 (by decide)⟩

end Rag
